import Mathlib

/-!
# Verification of the DOU gazette-monitor pipeline

A shallow embedding, in Lean 4, of the acquisition / dedup / filter /
grouping pipeline of the BOT_JORNAL_DOU_IA repository (`src/main.py`,
`src/utils.py`, `src/utils/url.py`, `src/state.py`), together with
theorems settling the frozen behavioural claims about it.

Python strings are modelled as Lean `String` / `List Char`; Python sets of
strings as `List String` with membership up to duplication; Python dicts
that only carry configuration as explicit parameters; filesystem and
network effects as explicit input parameters (fetch outcome, parsed file
state).  All definitions are executable.
-/

set_option maxRecDepth 10000

namespace Dou

/-! ## Python string primitives

`pyIsSpace` is Python's `str.strip()` / `\s` whitespace class restricted to
ASCII (the inputs handled by the bot are ASCII or Latin-1 text; the
characters below are exactly the ASCII characters Python treats as
whitespace). -/

def pyIsSpace (c : Char) : Bool :=
  c = ' ' || c = '\t' || c = '\n' || c = '\r' || c = '\x0b' || c = '\x0c'

/-- Python `str.strip()` on a list of characters. -/
def pyStripL (l : List Char) : List Char :=
  ((l.dropWhile pyIsSpace).reverse.dropWhile pyIsSpace).reverse

/-- Python `str.strip()`. -/
def pyStrip (s : String) : String := String.mk (pyStripL s.data)

/-- Python `str.lstrip("./")` : drop leading `.` and `/` characters. -/
def pyLstripDotSlash (l : List Char) : List Char :=
  l.dropWhile (fun c => c = '.' || c = '/')

/-- `re.sub(r"\s+", " ", ·)`: collapse every maximal run of whitespace
characters to a single space (no stripping).  The `Bool` flag records
whether the previous character was whitespace. -/
def collapseWsAux : Bool → List Char → List Char
  | _, [] => []
  | prevSpace, c :: rest =>
    if pyIsSpace c then
      if prevSpace then collapseWsAux true rest
      else ' ' :: collapseWsAux true rest
    else c :: collapseWsAux false rest

def collapseWsL (l : List Char) : List Char := collapseWsAux false l

/-- Python's lower-casing, modelled on the ASCII + Latin-1 letters used by
the bot's vocabulary (identity elsewhere). -/
def pyLowerChar (c : Char) : Char :=
  if 'A' ≤ c ∧ c ≤ 'Z' then Char.ofNat (c.toNat + 32)
  else if 0xC0 ≤ c.toNat ∧ c.toNat ≤ 0xDE ∧ c.toNat ≠ 0xD7 then Char.ofNat (c.toNat + 32)
  else c

/-- Python's upper-casing, modelled on the ASCII + Latin-1 letters used by
the bot's vocabulary (identity elsewhere). -/
def pyUpperChar (c : Char) : Char :=
  if 'a' ≤ c ∧ c ≤ 'z' then Char.ofNat (c.toNat - 32)
  else if 0xE0 ≤ c.toNat ∧ c.toNat ≤ 0xFE ∧ c.toNat ≠ 0xF7 then Char.ofNat (c.toNat - 32)
  else c

def pyLowerL (l : List Char) : List Char := l.map pyLowerChar
def pyUpperL (l : List Char) : List Char := l.map pyUpperChar
def pyLower (s : String) : String := String.mk (pyLowerL s.data)
def pyUpper (s : String) : String := String.mk (pyUpperL s.data)

/-- The third-party `unidecode` transliteration, modelled on the character
range the gazette titles use: identity on ASCII, base letters for the
Latin-1 accented letters, `o`/`a` for the ordinal indicators, and the
empty string for anything else (which `unidecode` maps to `""` when it has
no entry).  The repository only feeds it Portuguese text in this range. -/
def unidecodeChar (c : Char) : List Char :=
  if c.toNat < 128 then [c]
  else if c ∈ ['À', 'Á', 'Â', 'Ã', 'Ä', 'Å'] then ['A']
  else if c ∈ ['à', 'á', 'â', 'ã', 'ä', 'å'] then ['a']
  else if c = 'Ç' then ['C'] else if c = 'ç' then ['c']
  else if c ∈ ['È', 'É', 'Ê', 'Ë'] then ['E']
  else if c ∈ ['è', 'é', 'ê', 'ë'] then ['e']
  else if c ∈ ['Ì', 'Í', 'Î', 'Ï'] then ['I']
  else if c ∈ ['ì', 'í', 'î', 'ï'] then ['i']
  else if c = 'Ñ' then ['N'] else if c = 'ñ' then ['n']
  else if c ∈ ['Ò', 'Ó', 'Ô', 'Õ', 'Ö'] then ['O']
  else if c ∈ ['ò', 'ó', 'ô', 'õ', 'ö'] then ['o']
  else if c ∈ ['Ù', 'Ú', 'Û', 'Ü'] then ['U']
  else if c ∈ ['ù', 'ú', 'û', 'ü'] then ['u']
  else if c = 'Ý' then ['Y'] else if c ∈ ['ý', 'ÿ'] then ['y']
  else if c = 'º' then ['o'] else if c = 'ª' then ['a']
  else if c = '°' then ['d', 'e', 'g']
  else []

def unidecodeL (l : List Char) : List Char := l.flatMap unidecodeChar
def unidecode (s : String) : String := String.mk (unidecodeL s.data)

/-- Python's substring test `needle in hay` (on character lists). -/
def isPrefixL : List Char → List Char → Bool
  | [], _ => true
  | _ :: _, [] => false
  | a :: as, b :: bs => a = b && isPrefixL as bs

def isSubstrL (needle : List Char) : List Char → Bool
  | [] => isPrefixL needle []
  | c :: rest => isPrefixL needle (c :: rest) || isSubstrL needle rest

/-- Python's `<` on strings: lexicographic comparison of code points. -/
def strLtB : List Char → List Char → Bool
  | [], [] => false
  | [], _ :: _ => true
  | _ :: _, [] => false
  | a :: as, b :: bs =>
    decide (a.toNat < b.toNat) || (decide (a.toNat = b.toNat) && strLtB as bs)

/-! ## `absolutize` (src/main.py:526-541)

Converts a relative href into an absolute Imprensa Nacional URL. -/

def startsWithL (s pre : List Char) : Bool := isPrefixL pre s

def absolutize (href : String) : String :=
  if href = "" then "" else
  let h := pyStripL href.data
  if startsWithL h "http://".data || startsWithL h "https://".data then String.mk h
  else if startsWithL h "//".data then String.mk ("https:".data ++ h)
  else if startsWithL h "/".data then String.mk ("https://www.in.gov.br".data ++ h)
  else String.mk ("https://www.in.gov.br".data ++ ('/' :: pyLstripDotSlash h))

/-- "No trailing Python whitespace". -/
def noTrailWs (l : List Char) : Prop :=
  ∀ a, l.getLast? = some a → pyIsSpace a = false

/-! ## `extract_materia_id` (src/main.py:1239-1242, src/utils/url.py:74-86)

The Python code searches, with `re.search` and group 1, for the pattern
"slash, hyphen, then zero or more whole segments (one or more non-slash
characters followed by a slash), then at least six digits, then an
optional slash, then end of string".  The matcher below is a direct
executable transcription of that pattern with Python's backtracking
semantics: scan left to right for a slash immediately followed by a
hyphen; after it, greedily consume whole segments, then require a final
digit run of length at least six followed by an optional slash and the
end of the string.  Digits are `Char.isDigit` (the URLs are ASCII). -/

/-- `(\d{6,})/?$` at the current position. -/
def matchDigitsEnd (cs : List Char) : Option (List Char) :=
  if 6 ≤ (cs.takeWhile Char.isDigit).length
      ∧ (cs.drop (cs.takeWhile Char.isDigit).length = []
         ∨ cs.drop (cs.takeWhile Char.isDigit).length = ['/'])
  then some (cs.takeWhile Char.isDigit) else none

/-- `(?:[^/]+/)*(\d{6,})/?$` at the current position, greedy segments
first, with fuel for termination (the fuel is always sufficient:
each recursion strictly shortens the list). -/
def matchTailF : Nat → List Char → Option (List Char)
  | 0, _ => none
  | fuel + 1, cs =>
    match (if (cs.takeWhile (fun c => c ≠ '/')).isEmpty then none
           else match cs.drop (cs.takeWhile (fun c => c ≠ '/')).length with
                | '/' :: r2 => matchTailF fuel r2
                | _ => none) with
    | some out => some out
    | none => matchDigitsEnd cs

def matchTail (cs : List Char) : Option (List Char) :=
  matchTailF (cs.length + 1) cs

/-- Left-to-right scan for a slash-hyphen pair followed by the tail
pattern.  `prevSlash` records whether the previous character was `/`. -/
def idSearchAux : Bool → List Char → Option (List Char)
  | _, [] => none
  | prevSlash, c :: rest =>
    match (if prevSlash = true ∧ c = '-' then matchTail rest else none) with
    | some out => some out
    | none => idSearchAux (decide (c = '/')) rest

def idSearch (l : List Char) : Option (List Char) := idSearchAux false l

/-- `extract_materia_id` : the long numeric id of a gazette page URL,
when the URL matches the pattern. -/
def extract_materia_id (url : String) : Option String :=
  (idSearch url.data).map String.mk

/-- `build_seen_keys` (src/main.py:1576-1585): the `url:`-key (always) and
the `id:`-key (when the numeric id is extractable). -/
def build_seen_keys (url : String) : String × Option String :=
  ("url:" ++ url, (extract_materia_id url).map (fun i => "id:" ++ i))

/-! ## `build_direct_query_url` (src/main.py:985-1030, src/utils.py:19-62)

Builds the gazette search URL from phrase, period and section. -/

/-- `strip_outer_quotes` (src/main.py:552-557). -/
def strip_outer_quotes (s : String) : String :=
  let t := pyStripL s.data
  if 2 ≤ t.length ∧ t.head? = some '"' ∧ t.getLast? = some '"'
  then String.mk ((t.drop 1).dropLast) else String.mk t

/-- UTF-8 bytes (as `Nat`s below 256) of a code point. -/
def utf8Bytes (n : Nat) : List Nat :=
  if n < 0x80 then [n]
  else if n < 0x800 then [0xC0 + n / 64, 0x80 + n % 64]
  else if n < 0x10000 then [0xE0 + n / 4096, 0x80 + n / 64 % 64, 0x80 + n % 64]
  else [0xF0 + n / 262144, 0x80 + n / 4096 % 64, 0x80 + n / 64 % 64, 0x80 + n % 64]

def hexDigitUpper (n : Nat) : Char :=
  if n < 10 then Char.ofNat ('0'.toNat + n) else Char.ofNat ('A'.toNat + (n - 10))

/-- `urllib.parse.quote_plus` on one character: ASCII letters, digits and
`_.-~` stay; space becomes `+`; everything else is percent-encoded from
its UTF-8 bytes with uppercase hex. -/
def quotePlusChar (c : Char) : List Char :=
  if ('A' ≤ c ∧ c ≤ 'Z') ∨ ('a' ≤ c ∧ c ≤ 'z') ∨ ('0' ≤ c ∧ c ≤ '9')
      ∨ c = '_' ∨ c = '.' ∨ c = '-' ∨ c = '~' then [c]
  else if c = ' ' then ['+']
  else (utf8Bytes c.toNat).flatMap (fun b => ['%', hexDigitUpper (b / 16), hexDigitUpper (b % 16)])

def quote_plus (s : String) : String := String.mk (s.data.flatMap quotePlusChar)

/-- The `period_map` dict of `build_direct_query_url`. -/
def period_map : List (String × String) :=
  [("today", "dia"), ("day", "dia"), ("dia", "dia"), ("hoje", "dia"),
   ("edicao", "dia"), ("edição", "dia"),
   ("week", "semana"), ("semana", "semana"),
   ("month", "mes"), ("mes", "mes"), ("mês", "mes"),
   ("any", "all"), ("all", "all"), ("qualquer", "all"),
   ("qualquer periodo", "all"), ("qualquer período", "all")]

/-- `period_map.get(period, "dia")`. -/
def periodExact (period : String) : String :=
  match period_map.lookup period with
  | some e => e
  | none => "dia"

/-- `section_code if section_code in ("do1","do2","do3","todos") else "do1"`. -/
def sectionOrDefault (section_code : String) : String :=
  if section_code ∈ (["do1", "do2", "do3", "todos"] : List String)
  then section_code else "do1"

def build_direct_query_url (phrase period section_code : String) : String :=
  "https://www.in.gov.br/consulta/-/buscar/dou?q="
    ++ ("%22" ++ quote_plus (strip_outer_quotes phrase) ++ "%22")
    ++ "&s=" ++ sectionOrDefault section_code
    ++ "&exactDate=" ++ periodExact period ++ "&sortType=0"

/-! ## Listing-extractor noise filters (src/main.py:498-523, 1105-1176)
and `collect_links_from_listing` (src/main.py:1179-1236)

The page DOM is modelled as the list of `(href, text)` anchors the
selectors / deep-anchor fallback enumerate; the compiled
`accept_url_patterns` regexes are modelled as their `re.search`
predicates. -/

def BAD_ANCHOR_TEXTS : List String :=
  ["Última hora", "Ultima hora",
   "Últimas 24 horas", "Ultimas 24 horas",
   "Semana passada", "Mes passado", "Mês passado",
   "Ano passado", "Período Personalizado", "Periodo Personalizado",
   "Pesquisa avançada", "Pesquisa Avançada", "Pesquisa",
   "Verificação de autenticidade", "Voltar ao topo",
   "Portal", "Tutorial", "Termo de Uso",
   "Ir para o conteúdo", "Ir para o rodapé",
   "REPORTAR ERRO", "Diário Oficial da União"]

/-- The alternatives of `BAD_TEXT_PAT` (whose `.*(\(\d+\))?$` tail always
matches, so the pattern holds iff one keyword occurs, case-insensitively). -/
def BAD_TEXT_NEEDLES : List String :=
  ["últim", "ultima", "semana", "mês", "mes", "ano", "período", "periodo"]

def looks_like_menu (text : String) : Bool :=
  let t := pyStrip text
  if t = "" then false
  else if t ∈ BAD_ANCHOR_TEXTS then true
  else BAD_TEXT_NEEDLES.any (fun n => isSubstrL (pyLower n).data (pyLower t).data)

def should_reject_url (rejectSubs : List String) (url : String) : Bool :=
  rejectSubs.any (fun s => isSubstrL (pyLower s).data (pyLower url).data)

def should_reject_title (rejects : List String) (title : String) : Bool :=
  if rejects = [] then false
  else
    let t := pyStrip title
    if t = "" then false
    else
      rejects.any (fun s =>
        s != "" &&
        (let sn := pyStripL (pyLowerL (collapseWsL s.data))
         sn != [] && isSubstrL sn (pyLowerL (collapseWsL t.data))))

def title_allowed (kws : List String) (title : String) : Bool :=
  if kws = [] then true
  else kws.any (fun kw => isSubstrL (pyUpper kw).data (pyUpper title).data)

/-- `normalize` (src/main.py:332-341). -/
def normalize (txt : String) : String :=
  String.mk (pyStripL (collapseWsL (pyLowerL (unidecodeL txt.data))))

/-- `orgao_allowed` (src/main.py:1155-1176). -/
def orgao_allowed (kws : List String) (orgao : Option String) : Bool :=
  if kws = [] then true
  else
    let o := normalize (orgao.getD "")
    if o = "" then true
    else kws.any (fun kw => kw != "" && isSubstrL (normalize kw).data o.data)

/-- The filter configuration consumed by the listing extractor. -/
structure Cfg where
  reject_url_substrings : List String
  reject_title_substrings : List String
  title_keywords : List String
  accept_url_patterns : List (String → Bool)

/-- `add_candidate` inside `collect_links_from_listing`. -/
def add_candidate (cfg : Cfg) (links : List (String × String)) (href text : String) :
    List (String × String) :=
  if href = "" then links
  else if looks_like_menu text then links
  else if should_reject_url cfg.reject_url_substrings (absolutize href) then links
  else if should_reject_title cfg.reject_title_substrings text then links
  else if title_allowed cfg.title_keywords text = false then links
  else if cfg.accept_url_patterns.isEmpty = false
      ∧ cfg.accept_url_patterns.any (fun p => p (absolutize href)) = false then links
  else if links.any (fun e => e.1 = absolutize href) then links
  else links ++ [(absolutize href, text)]

/-- `collect_links_from_listing`, as a function of the anchors enumerated
from the page (all three tiers feed every candidate through
`add_candidate`; the insertion-ordered dict of links is the output). -/
def collect_links_from_listing (cfg : Cfg) (anchors : List (String × String)) :
    List (String × String) :=
  anchors.foldl (fun links a => add_candidate cfg links a.1 a.2) []

/-! ## Persisted state loading (src/main.py:306-319, src/state.py:20-40)

The state file is modelled by the outcome of opening and `json.load`-ing
it: the file may be missing, unreadable/corrupt (truncated JSON raises
inside the `try`), or parsed into a JSON value. -/

inductive LogLevel where
  | info | warn | error
deriving DecidableEq

inductive JsonValue where
  | jnull
  | jbool (b : Bool)
  | jnum (n : Int)
  | jstr (s : String)
  | jarr (elems : List JsonValue)
  | jobj

inductive LoadInput where
  | missing
  | corrupt
  | parsed (v : JsonValue)

/-- `load_seen` (src/main.py:306-319) together with everything it logs
(nothing: the function has no logging call on any path).  A missing file,
a file whose `json.load` raises, and a parsed non-list value all give the
empty set. -/
def load_seen : LoadInput → List JsonValue × List (LogLevel × String)
  | .missing => ([], [])
  | .corrupt => ([], [])
  | .parsed (.jarr xs) => (xs, [])
  | .parsed _ => ([], [])

/-- The log entries of `StateManager.load` (src/state.py:20-40) per input:
`logger.info` on the missing-file and loaded paths, `logger.error` when an
exception is caught (corrupt JSON, or iterating a non-iterable parsed
value such as `true` or a non-zero number). -/
def sm_load_logs : LoadInput → List (LogLevel × String)
  | .missing => [(.info, "Estado inicializado (sem arquivo existente).")]
  | .corrupt => [(.error, "Erro ao carregar estado")]
  | .parsed (.jarr _) => [(.info, "Estado carregado.")]
  | .parsed (.jstr _) => [(.info, "Estado carregado.")]
  | .parsed .jnull => [(.info, "Estado carregado.")]
  | .parsed (.jbool false) => [(.info, "Estado carregado.")]
  | .parsed (.jbool true) => [(.error, "Erro ao carregar estado")]
  | .parsed (.jnum n) =>
    if n = 0 then [(.info, "Estado carregado.")] else [(.error, "Erro ao carregar estado")]
  | .parsed .jobj => [(.info, "Estado carregado.")]

/-- A load input on which the claim expects "empty seen-set, first-run
behaviour": missing file, corrupt file, or parsed non-list value. -/
def failedLoad (inp : LoadInput) : Prop :=
  inp = .missing ∨ inp = .corrupt ∨ ∃ v, inp = .parsed v ∧ ∀ xs, v ≠ .jarr xs

/-! ## Documents and the enricher's fetch-failure path
(src/main.py:1408-1427)

`Item` is the enriched document dict of `main.py` (`url`, `titulo`,
`orgao`, `tipo`, `numero`, `data`, `texto_bruto`). -/

structure Item where
  url : String
  titulo : String
  orgao : Option String := none
  tipo : Option String := none
  numero : Option String := none
  data : String := ""
  texto_bruto : String := ""
deriving DecidableEq

/-- The document `enrich_listing_item` returns when `page.goto` on the
resolved URL raises (src/main.py:1415-1427): the candidate is kept, with
its display title (or the placeholder), the resolved URL, empty optional
metadata, today's date and empty body text. -/
def enrich_on_fetch_failure (item : Item) (final_url today : String) : Item :=
  { url := final_url
    titulo := if item.titulo = "" then "(sem título)" else item.titulo
    orgao := none
    tipo := none
    numero := none
    data := today
    texto_bruto := "" }

/-! ## Stable sorting

Python's `list.sort(key=k)` is a stable sort; a stable sort with a fixed
strict comparison is unique as a function, and is realised here by
insertion sort: each element is inserted after all earlier elements whose
key is not strictly greater.  `list.sort(key=k, reverse=True)` is the same
with the comparison flipped (Python documents that `reverse=True` keeps
equal elements in their original order). -/

def insertBy (lt : α → α → Bool) (x : α) : List α → List α
  | [] => [x]
  | y :: ys => if lt x y then x :: y :: ys else y :: insertBy lt x ys

def sortBy (lt : α → α → Bool) (l : List α) : List α :=
  l.foldl (fun acc x => insertBy lt x acc) []

/-! ## `_parse_br_date` (src/main.py:1568-1573)

`datetime.strptime(s, "%d/%m/%Y")`, with `datetime(1970, 1, 1)` on any
parse failure.  The `strptime` field patterns are transcribed exactly
(day: `3[01]|[12]\d|0[1-9]|[1-9]| [1-9]`; month: `1[0-2]|0[1-9]|[1-9]`;
year: four digits), the three fields are separated by literal slashes
with nothing left over, and `datetime` itself validates the calendar date
(day within the month's length, year at least 1).  Dates compare as
`(year, month, day)` triples, exactly as `datetime` values do. -/

def splitSlash : List Char → List (List Char)
  | [] => [[]]
  | c :: rest =>
    if c = '/' then [] :: splitSlash rest
    else
      match splitSlash rest with
      | [] => [[c]]
      | h :: t => (c :: h) :: t

def parseDayField : List Char → Option Nat
  | ['3', c] => if c = '0' then some 30 else if c = '1' then some 31 else none
  | [c1, c2] =>
    if c1 = '1' ∨ c1 = '2' then
      if c2.isDigit then some ((c1.toNat - 48) * 10 + (c2.toNat - 48)) else none
    else if c1 = '0' ∨ c1 = ' ' then
      if '1' ≤ c2 ∧ c2 ≤ '9' then some (c2.toNat - 48) else none
    else none
  | [c] => if '1' ≤ c ∧ c ≤ '9' then some (c.toNat - 48) else none
  | _ => none

def parseMonthField : List Char → Option Nat
  | ['1', c] =>
    if c = '0' then some 10 else if c = '1' then some 11
    else if c = '2' then some 12 else none
  | [c1, c2] =>
    if c1 = '0' ∧ '1' ≤ c2 ∧ c2 ≤ '9' then some (c2.toNat - 48) else none
  | [c] => if '1' ≤ c ∧ c ≤ '9' then some (c.toNat - 48) else none
  | _ => none

def parseYearField (l : List Char) : Option Nat :=
  if l.length = 4 ∧ l.all Char.isDigit
  then some (l.foldl (fun a c => a * 10 + (c.toNat - 48)) 0) else none

def isLeap (y : Nat) : Bool := y % 4 = 0 && (y % 100 ≠ 0 || y % 400 = 0)

def daysInMonth (y m : Nat) : Nat :=
  if m = 2 then (if isLeap y then 29 else 28)
  else if m = 4 ∨ m = 6 ∨ m = 9 ∨ m = 11 then 30
  else 31

def parseBrDate (s : String) : Nat × Nat × Nat :=
  match splitSlash s.data with
  | [ds, ms, ys] =>
    match parseDayField ds, parseMonthField ms, parseYearField ys with
    | some d, some m, some y =>
      if 1 ≤ y ∧ d ≤ daysInMonth y m then (y, m, d) else (1970, 1, 1)
    | _, _, _ => (1970, 1, 1)
  | _ => (1970, 1, 1)

/-! ## The pipeline of `run()` (src/main.py:1802-1898)

Already-seen filter, edition-day filter, organisation filter, sort by
`(date, title)` with `reverse=True`, hand-off, and seen-set commit. -/

/-- The membership test of src/main.py:1822: legacy bare URL, `url:`-key,
or extractable `id:`-key. -/
def isSeen (seen : List String) (u : String) : Bool :=
  decide (u ∈ seen) || decide ((build_seen_keys u).1 ∈ seen) ||
    (match (build_seen_keys u).2 with
     | some k => decide (k ∈ seen)
     | none => false)

/-- The commit of src/main.py:1886-1890: add the `url:`-key always and the
`id:`-key when it exists (set insertion, modelled as cons). -/
def addSeenKeys (seen : List String) (u : String) : List String :=
  match (build_seen_keys u).2 with
  | some k => k :: (build_seen_keys u).1 :: seen
  | none => (build_seen_keys u).1 :: seen

def commitSeen (seen : List String) (docs : List Item) : List String :=
  docs.foldl (fun s r => addSeenKeys s r.url) seen

/-- `period_effective in ("today","day","dia","hoje","edicao","edição")`
(src/main.py:1833). -/
def periodIsDay (period_eff : Option String) : Bool :=
  match period_eff with
  | some p => p ∈ (["today", "day", "dia", "hoje", "edicao", "edição"] : List String)
  | none => false

def seenFilter (seen : List String) (listing : List Item) : List Item :=
  listing.filter (fun v => !(isSeen seen v.url))

def dateFilter (period_eff : Option String) (today_br : String) (l : List Item) : List Item :=
  if periodIsDay period_eff then l.filter (fun r => pyStrip r.data == today_br) else l

def orgFilter (kws : List String) (l : List Item) : List Item :=
  if kws.isEmpty then l else l.filter (fun r => orgao_allowed kws r.orgao)

/-- `_sort_key` (src/main.py:1846-1847): `( _parse_br_date(data), titulo )`. -/
def runSortKey (r : Item) : (Nat × Nat × Nat) × List Char :=
  (parseBrDate r.data, r.titulo.data)

def tripleLtB (a b : Nat × Nat × Nat) : Bool :=
  decide (a.1 < b.1) || (decide (a.1 = b.1) &&
    (decide (a.2.1 < b.2.1) || (decide (a.2.1 = b.2.1) && decide (a.2.2 < b.2.2))))

/-- Python's `<` on `(datetime, str)` pairs. -/
def pairKeyLtB (a b : (Nat × Nat × Nat) × List Char) : Bool :=
  tripleLtB a.1 b.1 || (decide (a.1 = b.1) && strLtB a.2 b.2)

/-- `reverse=True`: `x` is placed strictly before `y` iff `x`'s key is
strictly greater. -/
def runLt (x y : Item) : Bool := pairKeyLtB (runSortKey y) (runSortKey x)

def sortRelevant (l : List Item) : List Item := sortBy runLt l

def afterFilters (seen : List String) (period_eff : Option String) (today_br : String)
    (orgKws : List String) (listing : List Item) : List Item :=
  orgFilter orgKws (dateFilter period_eff today_br (seenFilter seen listing))

/-- One run of the pipeline over an (already enriched) candidate list:
returns the hand-off list and the committed seen-set. -/
def runPipeline (seen : List String) (period_eff : Option String) (today_br : String)
    (orgKws : List String) (listing : List Item) : List Item × List String :=
  (sortRelevant (afterFilters seen period_eff today_br orgKws listing),
   commitSeen seen (sortRelevant (afterFilters seen period_eff today_br orgKws listing)))

/-- A one-document candidate list for the C1 witness. -/
def witnessDoc : Item := { url := "u0", titulo := "T", data := "01/01/2026" }

/-- Two same-date documents for the C2 counterexample. -/
def cexA : Item := { url := "u1", titulo := "A", data := "01/02/2026" }

def cexB : Item := { url := "u2", titulo := "B", data := "01/02/2026" }

/-! ## Grouping for the plain-text digest (src/main.py:602-702, 771-779)

`build_group_key` applies, to the normalised title, the three `re.sub`
removals (act-number token, long date phrase, bare `DE <year>`), turns
dash runs into spaces, collapses whitespace, and keeps the result only if
it has at least 10 characters.  The substitution scanners below transcribe
the patterns with Python's semantics; since every pattern starts with a
word character after a `\b`, a match is only attempted when the previous
character is not a word character. -/

def isWordChar (c : Char) : Bool := c.isAlpha || c.isDigit || c = '_'

/-- The class `[ºO°\.\s]` of the act-number pattern. -/
def isC1 (c : Char) : Bool := c = 'º' || c = 'O' || c = '°' || c = '.' || pyIsSpace c

/-- The class `[\d\.\-\/]` of the act-number pattern. -/
def isF1 (c : Char) : Bool := c.isDigit || c = '.' || c = '-' || c = '/'

/-- Greedy run of `isF1` characters; returns the last consumed character
and the remainder. -/
def fRun1 : Char → List Char → Char × List Char
  | c, [] => (c, [])
  | c, d :: rest => if isF1 d then fRun1 d rest else (c, d :: rest)

/-- `[ºO°\.\s]*\s*[\d\.\-\/]+` with greedy backtracking: consume the
class run as long as possible, fall back to starting the final run. -/
def matchCF : List Char → Option (Char × List Char)
  | [] => none
  | c :: rest =>
    match (if isC1 c then matchCF rest else none) with
    | some r => some r
    | none => if isF1 c then some (fRun1 c rest) else none

/-- The act-number pattern at the current position (after the `\b`). -/
def sub1TryAt : List Char → Option (Char × List Char)
  | 'N' :: rest => matchCF rest
  | _ => none

/-- `(?:\s+DE\s+\d{4})?\b` after the month word. -/
def yearTail (p : List Char) : Option (Char × List Char) :=
  if (p.takeWhile pyIsSpace).isEmpty then none else
  match p.drop (p.takeWhile pyIsSpace).length with
  | 'D' :: 'E' :: r5 =>
    if (r5.takeWhile pyIsSpace).isEmpty then none else
    match (r5.drop (r5.takeWhile pyIsSpace).length).takeWhile Char.isDigit,
        r5.drop (r5.takeWhile pyIsSpace).length with
    | y, r6 =>
      if y.length = 4 then
        match r6.drop 4 with
        | [] => some (y.getLast?.getD '0', [])
        | d :: t => if isWordChar d then none else some (y.getLast?.getD '0', d :: t)
      else none
  | _ => none

/-- `\s+\d{1,2}\s+DE\s+[A-Z]+(?:\s+DE\s+\d{4})?\b` after the leading
`DE`. -/
def dateTail (s : List Char) : Option (Char × List Char) :=
  if (s.takeWhile pyIsSpace).isEmpty then none else
  let r1 := s.drop (s.takeWhile pyIsSpace).length
  let dd := r1.takeWhile Char.isDigit
  if dd.length = 0 ∨ 3 ≤ dd.length then none else
  let r2 := r1.drop dd.length
  if (r2.takeWhile pyIsSpace).isEmpty then none else
  match r2.drop (r2.takeWhile pyIsSpace).length with
  | 'D' :: 'E' :: r3 =>
    if (r3.takeWhile pyIsSpace).isEmpty then none else
    let r4 := r3.drop (r3.takeWhile pyIsSpace).length
    let caps := r4.takeWhile (fun c => 'A' ≤ c ∧ c ≤ 'Z')
    if caps.isEmpty then none else
    let p := r4.drop caps.length
    match yearTail p with
    | some res => some res
    | none =>
      match p with
      | [] => some (caps.getLast?.getD 'A', [])
      | d :: t => if isWordChar d then none else some (caps.getLast?.getD 'A', d :: t)
  | _ => none

/-- The long date-phrase pattern at the current position. -/
def sub2TryAt : List Char → Option (Char × List Char)
  | 'D' :: 'E' :: rest => dateTail rest
  | _ => none

/-- `DE\s+\d{4}\b` at the current position. -/
def sub3TryAt : List Char → Option (Char × List Char)
  | 'D' :: 'E' :: rest =>
    if (rest.takeWhile pyIsSpace).isEmpty then none else
    let r := rest.drop (rest.takeWhile pyIsSpace).length
    let y := r.takeWhile Char.isDigit
    if y.length = 4 then
      match r.drop 4 with
      | [] => some (y.getLast?.getD '0', [])
      | d :: t => if isWordChar d then none else some (y.getLast?.getD '0', d :: t)
    else none
  | _ => none

/-- `re.sub` with empty replacement over the whole string, attempting the
pattern only at word boundaries (all three patterns start with a word
character), with fuel (always sufficient: every step consumes at least
one character). -/
def subScanF (tryAt : List Char → Option (Char × List Char)) :
    Nat → Bool → List Char → List Char
  | 0, _, l => l
  | _ + 1, _, [] => []
  | fuel + 1, prevWord, c :: rest =>
    match (if prevWord then none else tryAt (c :: rest)) with
    | some (lastC, rem) => subScanF tryAt fuel (isWordChar lastC) rem
    | none => c :: subScanF tryAt fuel (isWordChar c) rest

def subScan (tryAt : List Char → Option (Char × List Char)) (l : List Char) : List Char :=
  subScanF tryAt (l.length + 1) false l

def isDash (c : Char) : Bool := c = '–' || c = '—' || c = '-'

/-- `re.sub(r"[–—\-]+", " ", ·)`. -/
def sub4Aux : Bool → List Char → List Char
  | _, [] => []
  | inRun, c :: rest =>
    if isDash c then
      if inRun then sub4Aux true rest
      else ' ' :: sub4Aux true rest
    else c :: sub4Aux false rest

def sub4Dashes (l : List Char) : List Char := sub4Aux false l

/-- `_norm_key` (src/main.py:604-608): upper-case, strip accents,
collapse whitespace, strip. -/
def normKey (s : String) : List Char :=
  pyStripL (collapseWsL (unidecodeL (pyUpperL s.data)))

/-- `build_group_key` (src/main.py:610-629). -/
def build_group_key (title : String) : String :=
  let t5 := pyStripL (collapseWsL (sub4Dashes
    (subScan sub3TryAt (subScan sub2TryAt (subScan sub1TryAt (normKey title))))))
  if 10 ≤ t5.length then String.mk t5 else ""

/-- The group key as the claim words it: upper-cased, accent-stripped,
act-number token and date phrase removed, whitespace collapsed — i.e.
`build_group_key` *without* the source's 10-character minimum.  Stated
from the claim's words, for comparison with the source's definition. -/
def claimNormalizedKey (title : String) : String :=
  String.mk (pyStripL (collapseWsL (sub4Dashes
    (subScan sub3TryAt (subScan sub2TryAt (subScan sub1TryAt (normKey title)))))))

/-- The key used by the grouping pass: `build_group_key` of the stripped
title (src/main.py:672). -/
def keyOf (it : Item) : String := build_group_key (pyStrip it.titulo)

/-! ### `_extract_num` and `_num_to_int` (src/main.py:631-646) -/

/-- The class `[ºo°\.]` under `re.IGNORECASE`. -/
def isNumClassChar (c : Char) : Bool :=
  c = 'º' || c = 'o' || c = 'O' || c = '°' || c = '.'

/-- `\s*([\d\.]+(?:/\d{4})?)` at the current position; returns group 1. -/
def grabNum (s : List Char) : Option (List Char) :=
  let s2 := s.dropWhile pyIsSpace
  let dd := s2.takeWhile (fun c => c.isDigit || c = '.')
  if dd.isEmpty then none
  else
    match s2.drop dd.length with
    | '/' :: r =>
      let y := r.takeWhile Char.isDigit
      if 4 ≤ y.length then some (dd ++ '/' :: y.take 4) else some dd
    | _ => some dd

/-- `N[ºo°\.]?\s*([\d\.]+(?:/\d{4})?)` (case-insensitive) at the current
position. -/
def numTryAt : List Char → Option (List Char)
  | [] => none
  | c :: rest =>
    if c = 'N' ∨ c = 'n' then
      match rest with
      | [] => grabNum rest
      | d :: rest2 =>
        if isNumClassChar d then
          match grabNum rest2 with
          | some g => some g
          | none => grabNum rest
        else grabNum rest
    else none

/-- `re.search` scan for the act-number group in a title. -/
def searchNum : Bool → List Char → Option (List Char)
  | _, [] => none
  | prevWord, c :: rest =>
    match (if prevWord then none else numTryAt (c :: rest)) with
    | some g => some g
    | none => searchNum (isWordChar c) rest

/-- `_extract_num`: the structured `numero` field when non-blank, else the
first act-number group in the title. -/
def extractNum (it : Item) : String :=
  let fromNumero := pyStrip ((it.numero).getD "")
  if fromNumero ≠ "" then fromNumero
  else
    match searchNum false it.titulo.data with
    | some g => pyStrip (String.mk g)
    | none => ""

/-- `_num_to_int`: `None` for blank or slashed numbers, else the integer
of the digits. -/
def numToInt (num : String) : Option Nat :=
  if num = "" ∨ '/' ∈ num.data then none
  else
    let ds := num.data.filter Char.isDigit
    if ds.isEmpty then none
    else some (ds.foldl (fun a c => a * 10 + (c.toNat - 48)) 0)

/-! ### `_sortk`, grouping, and the numeric range
(src/main.py:663-702, 771-776) -/

/-- `_sortk x = (n is None, n or 0, titulo)` (src/main.py:692-694). -/
def sortkKey (x : Item) : Bool × Nat × List Char :=
  ((numToInt (extractNum x)).isNone, (numToInt (extractNum x)).getD 0, x.titulo.data)

/-- Python `<` on `(bool, int, str)` tuples (`False < True`). -/
def tripleKeyLt (a b : Bool × Nat × List Char) : Bool :=
  (decide (a.1 = false ∧ b.1 = true)) ||
  (decide (a.1 = b.1) && (decide (a.2.1 < b.2.1) ||
    (decide (a.2.1 = b.2.1) && strLtB a.2.2 b.2.2)))

/-- The strict comparison of the stable ascending member sort. -/
def sortkLt (x y : Item) : Bool := tripleKeyLt (sortkKey x) (sortkKey y)

def sortMembers (ms : List Item) : List Item := sortBy sortkLt ms

/-- The bucket of one key, in original order. -/
def membersOf (items : List Item) (k : String) : List Item :=
  items.filter (fun j => keyOf j == k)

inductive GEntry where
  | single (it : Item)
  | group (key : String) (members : List Item)
deriving DecidableEq

/-- `key and key in group_keys`: nonempty key whose bucket reaches
`min_reps`. -/
def isGroupKey (items : List Item) (min_reps : Nat) (k : String) : Bool :=
  decide (k ≠ "") && decide (min_reps ≤ (membersOf items k).length)

/-- The output loop of `group_items_for_plain_text_inplace`: emit one
group block at the first occurrence of each grouped key, suppress its
other occurrences, pass everything else through. -/
def groupGo (items : List Item) (min_reps : Nat) : List Item → List String → List GEntry
  | [], _ => []
  | it :: rest, emitted =>
    if isGroupKey items min_reps (keyOf it) then
      if keyOf it ∈ emitted then groupGo items min_reps rest emitted
      else GEntry.group (keyOf it) (sortMembers (membersOf items (keyOf it)))
        :: groupGo items min_reps rest (keyOf it :: emitted)
    else GEntry.single it :: groupGo items min_reps rest emitted

def group_items_for_plain_text (items : List Item) (min_reps : Nat) : List GEntry :=
  groupGo items min_reps items []

/-- The parseable numbers of a member list (`ints` in src/main.py:773). -/
def groupNums (ms : List Item) : List Nat :=
  ms.filterMap (fun x => numToInt (extractNum x))

def minNat : List Nat → Nat
  | [] => 0
  | x :: xs => xs.foldl Nat.min x

def maxNat : List Nat → Nat
  | [] => 0
  | x :: xs => xs.foldl Nat.max x

/-- The `faixa` of the group header (src/main.py:771-776): `(min, max)`
iff every member has a parseable number and there is at least one. -/
def numericRange (ms : List Item) : Option (Nat × Nat) :=
  if (groupNums ms).length = ms.length ∧ ¬ (groupNums ms).isEmpty
  then some (minNat (groupNums ms), maxNat (groupNums ms)) else none



def countGroupK (out : List GEntry) (k : String) : Nat :=
  (out.filter (fun e => match e with
    | .group k2 _ => k2 == k
    | _ => false)).length

def singlesWithKey (out : List GEntry) (k : String) : List Item :=
  out.filterMap (fun e => match e with
    | .single it => if keyOf it == k then some it else none
    | _ => none)

/-- Three same-key documents for the C3 witness (key
`PORTARIA FISCAL`). -/
def wg1 : Item := { url := "g1", titulo := "PORTARIA FISCAL N 50" }

def wg2 : Item := { url := "g2", titulo := "PORTARIA FISCAL N 60" }

def wg3 : Item := { url := "g3", titulo := "PORTARIA FISCAL N 70" }

/-- Two same-key documents for the C3 witness (key `DECRETO ESPECIAL`). -/
def wd1 : Item := { url := "d1", titulo := "DECRETO ESPECIAL N 10" }

def wd2 : Item := { url := "d2", titulo := "DECRETO ESPECIAL N 20" }

/-- Three documents whose titles share the claim's normalised key `LEI`
(shorter than 10 characters). -/
def lei1 : Item := { url := "l1", titulo := "LEI N 5" }

def lei2 : Item := { url := "l2", titulo := "LEI N 5" }

def lei3 : Item := { url := "l3", titulo := "LEI N 5" }

/-- Items for the C5 witness and counterexample: two numbered ordinances
and one with a slashed (unparseable) number, sharing one group key. -/
def mixA : Item := { url := "m1", titulo := "PORTARIA FISCAL N 50" }

def mixB : Item := { url := "m2", titulo := "PORTARIA FISCAL N 60" }

def mixC : Item := { url := "m3", titulo := "PORTARIA FISCAL N 123/2026" }

/-! ## Verified claims and supporting lemmas -/

theorem strLtB_trans : ∀ a b c : List Char,
    strLtB a b = true → strLtB b c = true → strLtB a c = true := by
  intro a
  induction a with
  | nil =>
    intro b c hab hbc
    cases b with
    | nil => simp [strLtB] at hab
    | cons y bs => cases c with
      | nil => simp [strLtB] at hbc
      | cons z cs => simp [strLtB]
  | cons x as ih =>
    intro b c hab hbc
    cases b with
    | nil => simp [strLtB] at hab
    | cons y bs =>
      cases c with
      | nil => simp [strLtB] at hbc
      | cons z cs =>
        simp only [strLtB, Bool.or_eq_true, Bool.and_eq_true, decide_eq_true_eq] at *
        rcases hab with h1 | ⟨h1, h2⟩ <;> rcases hbc with h3 | ⟨h3, h4⟩
        · exact Or.inl (Nat.lt_trans h1 h3)
        · exact Or.inl (h3 ▸ h1)
        · exact Or.inl (h1 ▸ h3)
        · exact Or.inr ⟨h1.trans h3, ih bs cs h2 h4⟩

theorem strLtB_asymm : ∀ a b : List Char,
    strLtB a b = true → strLtB b a = false := by
  intro a
  induction a with
  | nil =>
    intro b hab
    cases b with
    | nil => simp [strLtB] at hab
    | cons y bs => simp [strLtB]
  | cons x as ih =>
    intro b hab
    cases b with
    | nil => simp [strLtB] at hab
    | cons y bs =>
      simp only [strLtB, Bool.or_eq_true, Bool.and_eq_true, decide_eq_true_eq,
        Bool.or_eq_false_iff, Bool.and_eq_false_iff, decide_eq_false_iff_not] at *
      rcases hab with h1 | ⟨h1, h2⟩
      · exact ⟨by omega, Or.inl (by omega)⟩
      · exact ⟨by omega, Or.inr (ih bs h2)⟩

theorem head?_dropWhile_not (p : α → Bool) :
    ∀ (l : List α) (a : α), (l.dropWhile p).head? = some a → p a = false := by
  intro l
  induction l with
  | nil => intro a h; simp [List.dropWhile] at h
  | cons c cs ih =>
    intro a h
    by_cases hc : p c
    · rw [List.dropWhile_cons, if_pos hc] at h; exact ih a h
    · rw [List.dropWhile_cons, if_neg hc] at h
      simp only [List.head?_cons, Option.some.injEq] at h
      simpa [← h] using hc

theorem dropWhile_eq_self_of_head (p : α → Bool) (l : List α)
    (h : ∀ a, l.head? = some a → p a = false) : l.dropWhile p = l := by
  cases l with
  | nil => simp
  | cons c cs =>
    rw [List.dropWhile_cons, if_neg]
    simp [h c rfl]

theorem pyStripL_getLast?_not_space (l : List Char) (a : Char)
    (h : (pyStripL l).getLast? = some a) : pyIsSpace a = false := by
  unfold pyStripL at h
  rw [List.getLast?_reverse] at h
  exact head?_dropWhile_not pyIsSpace _ a h

theorem pyStripL_eq_self (l : List Char)
    (h1 : ∀ a, l.head? = some a → pyIsSpace a = false)
    (h2 : ∀ a, l.getLast? = some a → pyIsSpace a = false) : pyStripL l = l := by
  unfold pyStripL
  rw [dropWhile_eq_self_of_head pyIsSpace l h1]
  rw [dropWhile_eq_self_of_head pyIsSpace l.reverse (by intro a ha; rw [List.head?_reverse] at ha; exact h2 a ha)]
  exact l.reverse_reverse

theorem isPrefixL_iff : ∀ pre l : List Char, isPrefixL pre l = true ↔ ∃ t, l = pre ++ t := by
  intro pre
  induction pre with
  | nil => intro l; simp [isPrefixL]
  | cons a as ih =>
    intro l
    cases l with
    | nil => simp [isPrefixL]
    | cons b bs =>
      simp only [isPrefixL, Bool.and_eq_true, decide_eq_true_eq, ih bs, List.cons_append,
        List.cons.injEq]
      constructor
      · rintro ⟨hab, t, ht⟩; exact ⟨t, hab.symm, ht⟩
      · rintro ⟨t, hab, ht⟩; exact ⟨hab.symm, t, ht⟩

theorem noTrailWs_append (l₁ l₂ : List Char) (h : noTrailWs l₂) (hne : l₂ ≠ []) :
    noTrailWs (l₁ ++ l₂) := by
  intro a ha
  rw [List.getLast?_append] at ha
  rcases hx : l₂.getLast? with _ | b
  · exact absurd (List.getLast?_eq_none_iff.mp hx) hne
  · rw [hx] at ha
    simp only [Option.or_some, Option.some.injEq] at ha
    exact ha ▸ h b hx

theorem noTrailWs_strip (l : List Char) : noTrailWs (pyStripL l) :=
  fun a ha => pyStripL_getLast?_not_space l a ha

theorem noTrailWs_lstripDotSlash (s : List Char) (h : noTrailWs s) :
    noTrailWs (pyLstripDotSlash s) := by
  intro a ha
  obtain ⟨front, hfront⟩ := s.dropWhile_suffix (fun c => c = '.' || c = '/')
  apply h a
  rw [← hfront, List.getLast?_append]
  rw [show s.dropWhile (fun c => c = '.' || c = '/') = pyLstripDotSlash s from rfl, ha]
  rfl

theorem noTrailWs_slashCons (w : List Char) (h : noTrailWs w) :
    noTrailWs ('/' :: w) := by
  intro a ha
  rw [show ('/' :: w) = ['/'] ++ w from rfl, List.getLast?_append] at ha
  rcases hx : w.getLast? with _ | b
  · rw [hx] at ha
    simp only [Option.none_or, List.getLast?_singleton, Option.some.injEq] at ha
    subst ha; decide
  · rw [hx] at ha
    simp only [Option.or_some, Option.some.injEq] at ha
    exact ha ▸ h b hx

/-- On nonempty input, `absolutize` yields a string beginning with
`http://` or `https://` that is a fixed point of stripping. -/
theorem absolutize_spec (href : String) (h : href ≠ "") :
    (∃ t : List Char,
      (absolutize href).data = "http://".data ++ t ∨
      (absolutize href).data = "https://".data ++ t) ∧
    pyStripL (absolutize href).data = (absolutize href).data := by
  unfold absolutize
  rw [if_neg h]
  by_cases h1 : (startsWithL (pyStripL href.data) "http://".data
      || startsWithL (pyStripL href.data) "https://".data) = true
  · rw [if_pos h1]
    rcases Bool.or_eq_true _ _ |>.mp h1 with hp | hp
    · obtain ⟨t, ht⟩ := (isPrefixL_iff _ _).mp hp
      refine ⟨⟨t, Or.inl (by simp [ht])⟩, ?_⟩
      refine pyStripL_eq_self _ ?_ (by simpa using noTrailWs_strip href.data)
      intro a ha
      simp only [ht] at ha
      simp only [List.head?_append, List.head?_cons, Option.or_some,
        Option.some.injEq] at ha
      subst ha; decide
    · obtain ⟨t, ht⟩ := (isPrefixL_iff _ _).mp hp
      refine ⟨⟨t, Or.inr (by simp [ht])⟩, ?_⟩
      refine pyStripL_eq_self _ ?_ (by simpa using noTrailWs_strip href.data)
      intro a ha
      simp only [ht] at ha
      simp only [List.head?_append, List.head?_cons, Option.or_some,
        Option.some.injEq] at ha
      subst ha; decide
  · rw [if_neg h1]
    by_cases h2 : startsWithL (pyStripL href.data) "//".data = true
    · rw [if_pos h2]
      obtain ⟨t, ht⟩ := (isPrefixL_iff _ _).mp h2
      refine ⟨⟨t, Or.inr (by simp only [String.data]; rw [ht]; rfl)⟩, ?_⟩
      refine pyStripL_eq_self _ ?_ ?_
      · intro a ha
        simp only [List.head?_append, List.head?_cons, Option.or_some,
          Option.some.injEq] at ha
        subst ha; decide
      · show noTrailWs _
        exact noTrailWs_append _ _ (noTrailWs_strip _) (by rw [ht]; simp)
    · rw [if_neg h2]
      by_cases h3 : startsWithL (pyStripL href.data) "/".data = true
      · rw [if_pos h3]
        obtain ⟨t, ht⟩ := (isPrefixL_iff _ _).mp h3
        refine ⟨⟨"www.in.gov.br".data ++ pyStripL href.data, Or.inr (by simp)⟩, ?_⟩
        refine pyStripL_eq_self _ ?_ ?_
        · intro a ha
          simp only [List.head?_append, List.head?_cons, Option.or_some,
            Option.some.injEq] at ha
          subst ha; decide
        · show noTrailWs _
          exact noTrailWs_append _ _ (noTrailWs_strip _) (by rw [ht]; simp)
      · rw [if_neg h3]
        refine ⟨⟨"www.in.gov.br".data ++ '/' :: pyLstripDotSlash (pyStripL href.data),
          Or.inr (by simp)⟩, ?_⟩
        refine pyStripL_eq_self _ ?_ ?_
        · intro a ha
          simp only [List.head?_append, List.head?_cons, Option.or_some,
            Option.some.injEq] at ha
          subst ha; decide
        · show noTrailWs _
          exact noTrailWs_append _ _
            (noTrailWs_slashCons _ (noTrailWs_lstripDotSlash _ (noTrailWs_strip _)))
            (by simp)

theorem absolutize_fixed (s : String) (hne : s ≠ "")
    (hstrip : pyStripL s.data = s.data)
    (hstart : startsWithL s.data "http://".data = true
      ∨ startsWithL s.data "https://".data = true) :
    absolutize s = s := by
  unfold absolutize
  rw [if_neg hne, hstrip, if_pos (by rcases hstart with hx | hx <;> simp [hx])]

/-- **C10.** For every non-empty href, `absolutize` returns a string
beginning with `http://` or `https://`; `absolutize` is idempotent; and
the empty string maps to the empty string. -/
theorem absolutize_scheme_and_idempotent (href : String) :
    (href ≠ "" → startsWithL (absolutize href).data "http://".data = true
      ∨ startsWithL (absolutize href).data "https://".data = true)
    ∧ absolutize (absolutize href) = absolutize href
    ∧ absolutize "" = "" := by
  refine ⟨?_, ?_, rfl⟩
  · intro hne
    obtain ⟨⟨t, hsh⟩, _⟩ := absolutize_spec href hne
    rcases hsh with hsh | hsh
    · exact Or.inl ((isPrefixL_iff _ _).mpr ⟨t, hsh⟩)
    · exact Or.inr ((isPrefixL_iff _ _).mpr ⟨t, hsh⟩)
  · by_cases hne : href = ""
    · subst hne; rfl
    · obtain ⟨⟨t, hsh⟩, hstrip⟩ := absolutize_spec href hne
      have hne2 : absolutize href ≠ "" := by
        intro hc
        have : (absolutize href).data = [] := by rw [hc]
        rcases hsh with hsh | hsh <;> rw [hsh] at this <;> simp at this
      refine absolutize_fixed _ hne2 hstrip ?_
      rcases hsh with hsh | hsh
      · exact Or.inl ((isPrefixL_iff _ _).mpr ⟨t, hsh⟩)
      · exact Or.inr ((isPrefixL_iff _ _).mpr ⟨t, hsh⟩)

theorem takeWhile_all {p : α → Bool} :
    ∀ l : List α, (∀ c ∈ l, p c = true) → l.takeWhile p = l := by
  intro l
  induction l with
  | nil => intro; rfl
  | cons c cs ih =>
    intro h
    rw [List.takeWhile_cons, if_pos (h c (by simp)), ih (fun d hd => h d (by simp [hd]))]

theorem matchTailF_digits (fuel : Nat) (cs : List Char) (hf : 1 ≤ fuel)
    (hd : ∀ c ∈ cs, c.isDigit = true) (hl : 6 ≤ cs.length) :
    matchTailF fuel cs = some cs := by
  cases fuel with
  | zero => omega
  | succ f =>
    have hseg : cs.takeWhile (fun c => c ≠ '/') = cs := by
      refine takeWhile_all cs (fun c hc => ?_)
      have := hd c hc
      simp only [decide_eq_true_eq]
      intro hcc
      rw [hcc] at this
      simp at this
    have hds : cs.takeWhile Char.isDigit = cs := takeWhile_all cs hd
    have hcs : cs ≠ [] := by intro hc; rw [hc] at hl; simp at hl
    simp only [matchTailF, hseg, hds, List.drop_length]
    rw [if_neg (by simpa using hcs)]
    simp only [matchDigitsEnd, hds, List.drop_length]
    rw [if_pos ⟨hl, Or.inl trivial⟩]

theorem idSearchAux_digits :
    ∀ (cs : List Char) (prev : Bool), (∀ c ∈ cs, c.isDigit = true) →
      idSearchAux prev cs = none := by
  intro cs
  induction cs with
  | nil => intro prev _; rfl
  | cons c rest ih =>
    intro prev h
    have hc : ¬(prev = true ∧ c = '-') := by
      rintro ⟨_, hcc⟩
      have := h c (by simp)
      rw [hcc] at this
      simp at this
    simp only [idSearchAux, if_neg hc]
    exact ih _ (fun d hd => h d (by simp [hd]))

/-- **C4 counterexample.**  The claim says the numeric document id is
extracted for *every* URL whose trailing path segment is a ≥6-digit run,
"regardless of the surrounding URL path structure".  The code's pattern
additionally requires a slash-hyphen marker reachable through whole path
segments:
`https://a/b/123456` (and even the gazette's own canonical page URL shape)
has a ≥6-digit trailing numeric segment yet yields no id, while the same
URL with a slash-hyphen marker before the `b` segment yields `123456`. -/
theorem extract_materia_id_depends_on_path_structure :
    extract_materia_id "https://a/b/123456" = none
    ∧ extract_materia_id
        "https://www.in.gov.br/web/dou/-/portaria-n-100-de-2024-528726530" = none
    ∧ extract_materia_id "https://a/-b/123456" = some "123456"
    ∧ build_seen_keys "https://a/b/123456"
        = ("url:https://a/b/123456", none)
    ∧ build_seen_keys "https://a/-b/123456"
        = ("url:https://a/-b/123456", some "id:123456") := by
  refine ⟨rfl, rfl, rfl, rfl, rfl⟩

/-- **C4 (amended).**  For every ≥6-digit string `D`, a URL in which a
slash-hyphen marker is followed by whole non-slash segments and then `D`
as the final path segment yields the id `D`; whereas with the same
trailing numeric segment but no slash-hyphen marker nothing is extracted,
so extraction is anchored on that marker rather than independent of the
surrounding path structure. -/
theorem extract_materia_id_amended (D : List Char)
    (hd : ∀ c ∈ D, c.isDigit = true) (hl : 6 ≤ D.length) :
    extract_materia_id (String.mk ("https://a/-b/".data ++ D)) = some (String.mk D)
    ∧ extract_materia_id (String.mk ("https://a/b/".data ++ D)) = none := by
  have hmt : matchTail ('b' :: '/' :: D) = some D := by
    have h2 : matchTailF (D.length + 2) D = some D :=
      matchTailF_digits _ D (by omega) hd hl
    calc matchTail ('b' :: '/' :: D)
        = (match matchTailF (D.length + 2) D with
           | some out => some out
           | none => matchDigitsEnd ('b' :: '/' :: D)) := rfl
      _ = some D := by rw [h2]
  have hid : idSearch ("https://a/-b/".data ++ D) = some D := by
    calc idSearch ("https://a/-b/".data ++ D)
        = (match matchTail ('b' :: '/' :: D) with
           | some out => some out
           | none => idSearchAux (decide ('-' = '/')) ('b' :: '/' :: D)) := rfl
      _ = some D := by rw [hmt]
  have hnone : idSearch ("https://a/b/".data ++ D) = none := by
    calc idSearch ("https://a/b/".data ++ D)
        = idSearchAux true D := rfl
      _ = none := idSearchAux_digits D true hd
  constructor
  · show (idSearch ("https://a/-b/".data ++ D)).map String.mk = _
    rw [hid]
    rfl
  · show (idSearch ("https://a/b/".data ++ D)).map String.mk = _
    rw [hnone]
    rfl

/-- Witness for the amended C4 at a concrete digit string. -/
theorem extract_materia_id_amended_witness :
    extract_materia_id (String.mk ("https://a/-b/".data ++ "528726530".data))
        = some (String.mk "528726530".data)
    ∧ extract_materia_id (String.mk ("https://a/b/".data ++ "528726530".data)) = none :=
  extract_materia_id_amended "528726530".data (by decide) (by decide)

theorem lookup_mem_snd : ∀ (l : List (String × String)) (k v : String),
    l.lookup k = some v → v ∈ l.map Prod.snd := by
  intro l
  induction l with
  | nil => intro k v h; simp [List.lookup] at h
  | cons p t ih =>
    intro k v h
    rcases p with ⟨a, b⟩
    by_cases hk : k = a
    · simp only [List.lookup, hk, beq_self_eq_true] at h
      simp only [Option.some.injEq] at h
      simp [← h]
    · simp only [List.lookup, beq_eq_false_iff_ne, ne_eq,
        show (k == a) = false by simpa using hk] at h
      exact List.mem_cons_of_mem _ (ih k v h)

theorem lookup_eq_none_of_not_mem : ∀ (l : List (String × String)) (k : String),
    k ∉ l.map Prod.fst → l.lookup k = none := by
  intro l
  induction l with
  | nil => intro k _; rfl
  | cons p t ih =>
    intro k h
    rcases p with ⟨a, b⟩
    simp only [List.map_cons, List.mem_cons, not_or] at h
    simp only [List.lookup, show (k == a) = false by simpa using h.1]
    exact ih k h.2

theorem periodExact_mem (period : String) :
    periodExact period ∈ (["dia", "semana", "mes", "all"] : List String) := by
  unfold periodExact
  rcases h : period_map.lookup period with _ | e
  · simp
  · have := lookup_mem_snd period_map period e h
    simp only [period_map, List.map_cons, List.map_nil, List.mem_cons,
      List.not_mem_nil, or_false] at this
    rcases this with h1 | h1 | h1 | h1 | h1 | h1 | h1 | h1 | h1 | h1 | h1 | h1 | h1 | h1 | h1 | h1 <;>
      simp [h1]

/-- **C9.**  `build_direct_query_url` is a deterministic total function:
the URL is exactly the fixed prefix with the stripped phrase quote-plus
encoded once and wrapped in `%22`; the section in the URL is always one of
`do1 do2 do3 todos` (an invalid section is replaced by `do1`); the period
is mapped through the fixed vocabulary into `dia semana mes all`, with
unknown periods defaulting to `dia`. -/
theorem build_direct_query_url_spec (phrase period section_code : String) :
    build_direct_query_url phrase period section_code
      = "https://www.in.gov.br/consulta/-/buscar/dou?q="
          ++ ("%22" ++ quote_plus (strip_outer_quotes phrase) ++ "%22")
          ++ "&s=" ++ sectionOrDefault section_code
          ++ "&exactDate=" ++ periodExact period ++ "&sortType=0"
    ∧ sectionOrDefault section_code ∈ (["do1", "do2", "do3", "todos"] : List String)
    ∧ (section_code ∈ (["do1", "do2", "do3", "todos"] : List String) →
        sectionOrDefault section_code = section_code)
    ∧ (section_code ∉ (["do1", "do2", "do3", "todos"] : List String) →
        sectionOrDefault section_code = "do1")
    ∧ periodExact period ∈ (["dia", "semana", "mes", "all"] : List String)
    ∧ (period = "today" → periodExact period = "dia")
    ∧ (period = "week" → periodExact period = "semana")
    ∧ (period = "month" → periodExact period = "mes")
    ∧ (period = "any" → periodExact period = "all")
    ∧ (period ∉ period_map.map Prod.fst → periodExact period = "dia") := by
  refine ⟨rfl, ?_, ?_, ?_, periodExact_mem period, ?_, ?_, ?_, ?_, ?_⟩
  · by_cases h : section_code ∈ (["do1", "do2", "do3", "todos"] : List String)
    · simp [sectionOrDefault, h]
    · simp [sectionOrDefault, h]
  · intro h; simp [sectionOrDefault, h]
  · intro h; simp [sectionOrDefault, h]
  · intro h; rw [h]; rfl
  · intro h; rw [h]; rfl
  · intro h; rw [h]; rfl
  · intro h; rw [h]; rfl
  · intro h
    unfold periodExact
    rw [lookup_eq_none_of_not_mem period_map period h]

/-- Witness for C9 at concrete inputs. -/
theorem build_direct_query_url_spec_witness :
    sectionOrDefault "do9" = "do1"
    ∧ periodExact "today" = "dia"
    ∧ periodExact "sometime" = "dia"
    ∧ build_direct_query_url "\"tax\"" "today" "do9"
      = "https://www.in.gov.br/consulta/-/buscar/dou?q="
          ++ ("%22" ++ quote_plus (strip_outer_quotes "\"tax\"") ++ "%22")
          ++ "&s=" ++ sectionOrDefault "do9"
          ++ "&exactDate=" ++ periodExact "today" ++ "&sortType=0" :=
  ⟨(build_direct_query_url_spec "x" "today" "do9").2.2.2.1 (by decide),
   (build_direct_query_url_spec "x" "today" "do9").2.2.2.2.2.1 rfl,
   (build_direct_query_url_spec "x" "sometime" "do9").2.2.2.2.2.2.2.2.2 (by decide),
   (build_direct_query_url_spec "\"tax\"" "today" "do9").1⟩

/-- Witness for C10 at a concrete input. -/
theorem absolutize_scheme_and_idempotent_witness :
    (startsWithL (absolutize "x").data "http://".data = true
      ∨ startsWithL (absolutize "x").data "https://".data = true)
    ∧ absolutize (absolutize "x") = absolutize "x" :=
  ⟨(absolutize_scheme_and_idempotent "x").1 (by decide),
   (absolutize_scheme_and_idempotent "x").2.1⟩

theorem add_candidate_no_rejected_title (cfg : Cfg) (links : List (String × String))
    (href text : String)
    (hp : ∀ u t : String, (u, t) ∈ links →
      should_reject_title cfg.reject_title_substrings t = false) :
    ∀ u t : String, (u, t) ∈ add_candidate cfg links href text →
      should_reject_title cfg.reject_title_substrings t = false := by
  intro u t hmem
  unfold add_candidate at hmem
  split_ifs at hmem with h1 h2 h3 h4 h5 h6 h7
  · exact hp u t hmem
  · exact hp u t hmem
  · exact hp u t hmem
  · exact hp u t hmem
  · exact hp u t hmem
  · exact hp u t hmem
  · exact hp u t hmem
  · rcases List.mem_append.mp hmem with hmem2 | hmem2
    · exact hp u t hmem2
    · simp only [List.mem_singleton, Prod.mk.injEq] at hmem2
      rw [hmem2.2] at *
      simpa using h4

theorem foldl_add_candidate_no_rejected_title (cfg : Cfg) :
    ∀ (anchors : List (String × String)) (links : List (String × String)),
      (∀ u t : String, (u, t) ∈ links →
        should_reject_title cfg.reject_title_substrings t = false) →
      ∀ u t : String,
        (u, t) ∈ anchors.foldl (fun links a => add_candidate cfg links a.1 a.2) links →
        should_reject_title cfg.reject_title_substrings t = false := by
  intro anchors
  induction anchors with
  | nil => intro links hp u t hmem; exact hp u t hmem
  | cons a rest ih =>
    intro links hp u t hmem
    exact ih _ (add_candidate_no_rejected_title cfg links a.1 a.2 hp) u t hmem

/-- **C8.**  The title blacklist is a hard veto: no candidate whose display
title matches a configured title-reject substring (case-insensitively,
whitespace collapsed — that is the `should_reject_title` test) ever
appears in the listing extractor's output, whatever the keyword
allow-list and URL accept-patterns say. -/
theorem title_reject_total_veto (cfg : Cfg) (anchors : List (String × String))
    (u t : String) (hmem : (u, t) ∈ collect_links_from_listing cfg anchors) :
    should_reject_title cfg.reject_title_substrings t = false :=
  foldl_add_candidate_no_rejected_title cfg anchors []
    (by intro u t h; simp at h) u t hmem

/-- Witness for C8 at a concrete configuration and page. -/
theorem title_reject_total_veto_witness :
    should_reject_title ["spam"] "good title" = false :=
  title_reject_total_veto
    ⟨[], ["spam"], [], []⟩
    [("materia/x", "good title"), ("materia/y", "real spam title")]
    "https://www.in.gov.br/materia/x" "good title" (by decide)

/-- **C6 counterexample.**  The claim says the corruption case is logged
as a *warning*.  The pipeline's `load_seen` logs nothing at all on a
corrupt state file, and the `StateManager` variant logs at *error* level;
neither emits a warning. -/
theorem load_seen_corrupt_not_warned :
    load_seen .corrupt = ([], [])
    ∧ sm_load_logs .corrupt = [(LogLevel.error, "Erro ao carregar estado")]
    ∧ ((load_seen .corrupt).2.any (fun e => e.1 = LogLevel.warn)) = false
    ∧ ((sm_load_logs .corrupt).any (fun e => e.1 = LogLevel.warn)) = false := by
  refine ⟨rfl, rfl, rfl, rfl⟩

/-- **C6 (amended).**  Loading never raises and fails open: for a
missing, corrupt or non-list state file `load_seen` returns the empty
seen-set, so the pipeline proceeds as on a first run; the corruption case
is logged at error level by the `StateManager` variant and not logged at
all by the pipeline's `load_seen` — not as a warning. -/
theorem load_seen_fail_open (inp : LoadInput) (h : failedLoad inp) :
    load_seen inp = ([], [])
    ∧ sm_load_logs .corrupt = [(LogLevel.error, "Erro ao carregar estado")] := by
  refine ⟨?_, rfl⟩
  rcases h with h | h | ⟨v, h, hv⟩
  · rw [h]; rfl
  · rw [h]; rfl
  · rw [h]
    cases v with
    | jarr xs => exact absurd rfl (hv xs)
    | jnull => rfl
    | jbool b => rfl
    | jnum n => rfl
    | jstr s => rfl
    | jobj => rfl

/-- Witness for the amended C6 at the corrupt input. -/
theorem load_seen_fail_open_witness :
    load_seen .corrupt = ([], [])
    ∧ sm_load_logs .corrupt = [(LogLevel.error, "Erro ao carregar estado")] :=
  load_seen_fail_open .corrupt (Or.inr (Or.inl rfl))

/-- **C7.**  Degrade-not-drop: when the canonical-page fetch fails the
enricher still returns a document — with a non-empty title, the resolved
URL, absent `orgao`/`tipo`/`numero`, the publication date set to today's
date (never unset), and empty body text. -/
theorem enrich_degrade_not_drop (item : Item) (final_url today : String) :
    (enrich_on_fetch_failure item final_url today).titulo ≠ ""
    ∧ (enrich_on_fetch_failure item final_url today).url = final_url
    ∧ (enrich_on_fetch_failure item final_url today).orgao = none
    ∧ (enrich_on_fetch_failure item final_url today).tipo = none
    ∧ (enrich_on_fetch_failure item final_url today).numero = none
    ∧ (enrich_on_fetch_failure item final_url today).data = today
    ∧ (enrich_on_fetch_failure item final_url today).texto_bruto = "" := by
  refine ⟨?_, rfl, rfl, rfl, rfl, rfl, rfl⟩
  by_cases h : item.titulo = "" <;> simp [enrich_on_fetch_failure, h]


theorem insertBy_perm (lt : α → α → Bool) (x : α) :
    ∀ l : List α, (insertBy lt x l).Perm (x :: l) := by
  intro l
  induction l with
  | nil => simp [insertBy]
  | cons y ys ih =>
    by_cases h : lt x y
    · simp [insertBy, h]
    · simp only [insertBy, if_neg h]
      exact (List.Perm.cons y ih).trans (List.Perm.swap x y ys)

theorem foldl_insertBy_perm (lt : α → α → Bool) :
    ∀ (l acc : List α),
      (l.foldl (fun acc x => insertBy lt x acc) acc).Perm (acc ++ l) := by
  intro l
  induction l with
  | nil => intro acc; simp
  | cons x xs ih =>
    intro acc
    refine (ih (insertBy lt x acc)).trans ?_
    refine (List.Perm.append_right xs (insertBy_perm lt x acc)).trans ?_
    exact List.perm_middle.symm

theorem sortBy_perm (lt : α → α → Bool) (l : List α) : (sortBy lt l).Perm l := by
  simpa [sortBy] using foldl_insertBy_perm lt l []

theorem mem_insertBy (lt : α → α → Bool) (x z : α) (l : List α) :
    z ∈ insertBy lt x l ↔ z = x ∨ z ∈ l := by
  rw [(insertBy_perm lt x l).mem_iff]
  simp

theorem insertBy_pairwise (lt : α → α → Bool)
    (htr : ∀ a b c, lt a b = true → lt b c = true → lt a c = true)
    (hasym : ∀ a b, lt a b = true → lt b a = false)
    (x : α) (l : List α) (hl : l.Pairwise (fun a b => lt b a = false)) :
    (insertBy lt x l).Pairwise (fun a b => lt b a = false) := by
  induction l with
  | nil => simp [insertBy]
  | cons y ys ih =>
    rcases List.pairwise_cons.mp hl with ⟨hy, hys⟩
    by_cases hxy : lt x y = true
    · rw [insertBy, if_pos hxy]
      refine List.pairwise_cons.mpr ⟨?_, hl⟩
      intro z hz
      rcases List.mem_cons.mp hz with rfl | hz2
      · exact hasym x z hxy
      · rcases hb : lt z x with _ | _
        · rfl
        · exact absurd (htr z x y hb hxy) (by simp [hy z hz2])
    · rw [insertBy, if_neg hxy]
      refine List.pairwise_cons.mpr ⟨?_, ih hys⟩
      intro z hz
      rcases (mem_insertBy lt x z ys).mp hz with rfl | hz2
      · exact Bool.not_eq_true _ ▸ (by simpa using hxy)
      · exact hy z hz2

theorem foldl_insertBy_pairwise (lt : α → α → Bool)
    (htr : ∀ a b c, lt a b = true → lt b c = true → lt a c = true)
    (hasym : ∀ a b, lt a b = true → lt b a = false) :
    ∀ (l acc : List α), acc.Pairwise (fun a b => lt b a = false) →
      (l.foldl (fun acc x => insertBy lt x acc) acc).Pairwise
        (fun a b => lt b a = false) := by
  intro l
  induction l with
  | nil => intro acc h; exact h
  | cons x xs ih =>
    intro acc h
    exact ih _ (insertBy_pairwise lt htr hasym x acc h)

theorem sortBy_pairwise (lt : α → α → Bool)
    (htr : ∀ a b c, lt a b = true → lt b c = true → lt a c = true)
    (hasym : ∀ a b, lt a b = true → lt b a = false) (l : List α) :
    (sortBy lt l).Pairwise (fun a b => lt b a = false) :=
  foldl_insertBy_pairwise lt htr hasym l [] (by simp)

theorem mem_addSeenKeys_superset (s : List String) (u a : String) (h : a ∈ s) :
    a ∈ addSeenKeys s u := by
  unfold addSeenKeys
  rcases (build_seen_keys u).2 with _ | k <;> simp [h]

theorem mem_commitSeen_superset (docs : List Item) :
    ∀ (s : List String) (a : String), a ∈ s → a ∈ commitSeen s docs := by
  induction docs with
  | nil => intro s a h; exact h
  | cons d ds ih =>
    intro s a h
    exact ih _ a (mem_addSeenKeys_superset s d.url a h)

theorem urlKey_mem_addSeenKeys (s : List String) (u : String) :
    (build_seen_keys u).1 ∈ addSeenKeys s u := by
  unfold addSeenKeys
  rcases (build_seen_keys u).2 with _ | k <;> simp

theorem idKey_mem_addSeenKeys (s : List String) (u k : String)
    (h : (build_seen_keys u).2 = some k) : k ∈ addSeenKeys s u := by
  unfold addSeenKeys
  rw [h]
  simp

theorem urlKey_mem_commitSeen (docs : List Item) :
    ∀ (s : List String) (r : Item), r ∈ docs →
      (build_seen_keys r.url).1 ∈ commitSeen s docs := by
  induction docs with
  | nil => intro s r h; simp at h
  | cons d ds ih =>
    intro s r h
    rcases List.mem_cons.mp h with rfl | h2
    · exact mem_commitSeen_superset ds _ _ (urlKey_mem_addSeenKeys s r.url)
    · exact ih _ r h2

theorem idKey_mem_commitSeen (docs : List Item) :
    ∀ (s : List String) (r : Item) (k : String), r ∈ docs →
      (build_seen_keys r.url).2 = some k → k ∈ commitSeen s docs := by
  induction docs with
  | nil => intro s r k h; simp at h
  | cons d ds ih =>
    intro s r k h hk
    rcases List.mem_cons.mp h with rfl | h2
    · exact mem_commitSeen_superset ds _ _ (idKey_mem_addSeenKeys s r.url k hk)
    · exact ih _ r k h2 hk

theorem isSeen_mono (s s' : List String) (hsub : ∀ a, a ∈ s → a ∈ s')
    (u : String) (h : isSeen s u = true) : isSeen s' u = true := by
  simp only [isSeen, Bool.or_eq_true, decide_eq_true_eq] at h ⊢
  rcases h with (h | h) | h
  · exact Or.inl (Or.inl (hsub _ h))
  · exact Or.inl (Or.inr (hsub _ h))
  · rcases hk : (build_seen_keys u).2 with _ | k
    · rw [hk] at h
      simp at h
    · rw [hk] at h
      simp only [decide_eq_true_eq] at h
      exact Or.inr (by simpa using hsub _ h)

theorem mem_afterFilters (seen : List String) (pe : Option String) (tb : String)
    (kws : List String) (listing : List Item) (v : Item) :
    v ∈ afterFilters seen pe tb kws listing ↔
      v ∈ listing ∧ isSeen seen v.url = false
      ∧ (periodIsDay pe = true → (pyStrip v.data == tb) = true)
      ∧ (kws.isEmpty = false → orgao_allowed kws v.orgao = true) := by
  unfold afterFilters orgFilter dateFilter seenFilter
  by_cases hpe : periodIsDay pe <;> by_cases hk : kws.isEmpty <;>
    simp [hpe, hk, List.mem_filter] <;> tauto

/-- **C1.**  For every document handed off, the committed seen-set
contains the `url:`-key, and the `id:`-key whenever one is extractable;
and a second pipeline run over the same candidate list with the committed
seen-set hands off zero documents. -/
theorem pipeline_dedup_idempotent (seen : List String) (pe : Option String)
    (tb : String) (kws : List String) (listing : List Item) :
    (∀ r : Item, r ∈ (runPipeline seen pe tb kws listing).1 →
      ("url:" ++ r.url) ∈ (runPipeline seen pe tb kws listing).2
      ∧ (∀ i : String, extract_materia_id r.url = some i →
          ("id:" ++ i) ∈ (runPipeline seen pe tb kws listing).2))
    ∧ (runPipeline ((runPipeline seen pe tb kws listing).2) pe tb kws listing).1 = [] := by
  constructor
  · intro r hr
    constructor
    · exact urlKey_mem_commitSeen _ seen r hr
    · intro i hi
      refine idKey_mem_commitSeen _ seen r ("id:" ++ i) hr ?_
      simp [build_seen_keys, hi]
  · have hnil : afterFilters ((runPipeline seen pe tb kws listing).2) pe tb kws listing = [] := by
      rw [List.eq_nil_iff_forall_not_mem]
      intro v hv
      rw [mem_afterFilters] at hv
      obtain ⟨hl, hns, hd, ho⟩ := hv
      have hsub : ∀ a, a ∈ seen → a ∈ (runPipeline seen pe tb kws listing).2 :=
        fun a ha => mem_commitSeen_superset _ seen a ha
      have hns0 : isSeen seen v.url = false := by
        rcases hb : isSeen seen v.url with _ | _
        · rfl
        · rw [isSeen_mono seen _ hsub v.url hb] at hns
          exact hns
      have hv1 : v ∈ afterFilters seen pe tb kws listing :=
        (mem_afterFilters seen pe tb kws listing v).mpr ⟨hl, hns0, hd, ho⟩
      have hfin : v ∈ (runPipeline seen pe tb kws listing).1 :=
        ((sortBy_perm runLt (afterFilters seen pe tb kws listing)).mem_iff).mpr hv1
      have hurl : (build_seen_keys v.url).1 ∈ (runPipeline seen pe tb kws listing).2 :=
        urlKey_mem_commitSeen _ seen v hfin
      have : isSeen ((runPipeline seen pe tb kws listing).2) v.url = true := by
        simp only [isSeen, Bool.or_eq_true, decide_eq_true_eq]
        exact Or.inl (Or.inr hurl)
      rw [this] at hns
      exact Bool.true_eq_false.mp hns
    show sortRelevant (afterFilters _ pe tb kws listing) = []
    rw [hnil]
    rfl

/-- Witness for C1 at a concrete run. -/
theorem pipeline_dedup_idempotent_witness :
    ("url:" ++ witnessDoc.url) ∈ (runPipeline [] none "" [] [witnessDoc]).2
    ∧ (runPipeline ((runPipeline [] none "" [] [witnessDoc]).2) none "" [] [witnessDoc]).1 = [] :=
  ⟨((pipeline_dedup_idempotent [] none "" [] [witnessDoc]).1 witnessDoc (by decide)).1,
   (pipeline_dedup_idempotent [] none "" [] [witnessDoc]).2⟩



theorem tripleLtB_trans (a b c : Nat × Nat × Nat)
    (h1 : tripleLtB a b = true) (h2 : tripleLtB b c = true) : tripleLtB a c = true := by
  obtain ⟨a1, a2, a3⟩ := a
  obtain ⟨b1, b2, b3⟩ := b
  obtain ⟨c1, c2, c3⟩ := c
  simp only [tripleLtB, Bool.or_eq_true, Bool.and_eq_true, decide_eq_true_eq,
    Prod.mk.injEq] at h1 h2 ⊢
  omega

theorem tripleLtB_asymm (a b : Nat × Nat × Nat)
    (h : tripleLtB a b = true) : tripleLtB b a = false := by
  obtain ⟨a1, a2, a3⟩ := a
  obtain ⟨b1, b2, b3⟩ := b
  simp only [tripleLtB, Bool.or_eq_true, Bool.and_eq_true, decide_eq_true_eq,
    Prod.mk.injEq, Bool.or_eq_false_iff, Bool.and_eq_false_iff,
    decide_eq_false_iff_not] at h ⊢
  omega

theorem tripleLtB_irrefl (a : Nat × Nat × Nat) : tripleLtB a a = false := by
  obtain ⟨a1, a2, a3⟩ := a
  simp only [tripleLtB, Bool.or_eq_false_iff, Bool.and_eq_false_iff,
    decide_eq_false_iff_not, Prod.mk.injEq]
  omega

theorem pairKeyLtB_trans (a b c : (Nat × Nat × Nat) × List Char)
    (h1 : pairKeyLtB a b = true) (h2 : pairKeyLtB b c = true) :
    pairKeyLtB a c = true := by
  simp only [pairKeyLtB, Bool.or_eq_true, Bool.and_eq_true, decide_eq_true_eq] at h1 h2 ⊢
  rcases h1 with h1 | ⟨e1, s1⟩ <;> rcases h2 with h2 | ⟨e2, s2⟩
  · exact Or.inl (tripleLtB_trans _ _ _ h1 h2)
  · exact Or.inl (e2 ▸ h1)
  · exact Or.inl (e1 ▸ h2)
  · exact Or.inr ⟨e1.trans e2, strLtB_trans _ _ _ s1 s2⟩

theorem pairKeyLtB_asymm (a b : (Nat × Nat × Nat) × List Char)
    (h : pairKeyLtB a b = true) : pairKeyLtB b a = false := by
  simp only [pairKeyLtB, Bool.or_eq_true, Bool.and_eq_true, decide_eq_true_eq] at h
  simp only [pairKeyLtB, Bool.or_eq_false_iff, Bool.and_eq_false_iff,
    decide_eq_false_iff_not]
  rcases h with h | ⟨e, hs⟩
  · constructor
    · exact tripleLtB_asymm _ _ h
    · left
      intro he
      rw [he] at h
      rw [tripleLtB_irrefl] at h
      exact Bool.true_eq_false.mp h.symm
  · constructor
    · rw [← e, tripleLtB_irrefl]
    · right
      exact strLtB_asymm _ _ hs

theorem runLt_trans (x y z : Item) (h1 : runLt x y = true) (h2 : runLt y z = true) :
    runLt x z = true :=
  pairKeyLtB_trans _ _ _ h2 h1

theorem runLt_asymm (x y : Item) (h : runLt x y = true) : runLt y x = false :=
  pairKeyLtB_asymm _ _ h

/-- **C2 (amended).**  After the already-seen, edition-date and
organisation filters, the hand-off list is a permutation of the filtered
list, ordered by the `(publicationDate, title)` key *descending* — so
date descending with ties broken by title **descending** (not ascending;
stability keeps fully-equal keys in input order). -/
theorem pipeline_output_sorted (seen : List String) (pe : Option String)
    (tb : String) (kws : List String) (listing : List Item) :
    ((runPipeline seen pe tb kws listing).1).Perm
        (afterFilters seen pe tb kws listing)
    ∧ ((runPipeline seen pe tb kws listing).1).Pairwise
        (fun a b => pairKeyLtB (runSortKey a) (runSortKey b) = false) := by
  constructor
  · exact sortBy_perm runLt (afterFilters seen pe tb kws listing)
  · exact sortBy_pairwise runLt
      (fun a b c => runLt_trans a b c) (fun a b => runLt_asymm a b)
      (afterFilters seen pe tb kws listing)

/-- **C2 counterexample.**  The claim says ties in `publicationDate` are
broken by title *ascending*.  With two documents of the same date and
titles `A < B`, the pipeline (whose sort is `reverse=True` over the whole
`(date, title)` key) hands off `B` before `A`: the tie is broken by title
descending. -/
theorem pipeline_tie_broken_descending :
    (runPipeline [] none "" [] [cexA, cexB]).1 = [cexB, cexA]
    ∧ strLtB cexA.titulo.data cexB.titulo.data = true
    ∧ cexA.data = cexB.data := by
  refine ⟨by decide, by decide, rfl⟩



theorem groupGo_cons_skip (items : List Item) (m : Nat) (it : Item) (rest : List Item)
    (emitted : List String) (hg : isGroupKey items m (keyOf it) = true)
    (he : keyOf it ∈ emitted) :
    groupGo items m (it :: rest) emitted = groupGo items m rest emitted := by
  simp only [groupGo]
  rw [if_pos hg, if_pos he]

theorem groupGo_cons_emit (items : List Item) (m : Nat) (it : Item) (rest : List Item)
    (emitted : List String) (hg : isGroupKey items m (keyOf it) = true)
    (he : keyOf it ∉ emitted) :
    groupGo items m (it :: rest) emitted
      = GEntry.group (keyOf it) (sortMembers (membersOf items (keyOf it)))
        :: groupGo items m rest (keyOf it :: emitted) := by
  simp only [groupGo]
  rw [if_pos hg, if_neg he]

theorem groupGo_cons_single (items : List Item) (m : Nat) (it : Item) (rest : List Item)
    (emitted : List String) (hg : isGroupKey items m (keyOf it) = false) :
    groupGo items m (it :: rest) emitted
      = GEntry.single it :: groupGo items m rest emitted := by
  simp only [groupGo]
  rw [if_neg (by simp [hg])]

theorem countGroupK_cons_group (k2 k : String) (ms : List Item) (out : List GEntry) :
    countGroupK (GEntry.group k2 ms :: out) k
      = (if k2 = k then 1 else 0) + countGroupK out k := by
  by_cases h : k2 = k
  · simp [countGroupK, List.filter_cons, h]
    omega
  · simp [countGroupK, List.filter_cons, h]

theorem countGroupK_cons_single (it : Item) (out : List GEntry) (k : String) :
    countGroupK (GEntry.single it :: out) k = countGroupK out k := by
  simp [countGroupK, List.filter_cons]

theorem groupGo_count (items : List Item) (m : Nat) (k : String) :
    ∀ (rest : List Item) (emitted : List String),
      countGroupK (groupGo items m rest emitted) k
        = if isGroupKey items m k = true ∧ k ∉ emitted ∧ ∃ it ∈ rest, keyOf it = k
          then 1 else 0 := by
  intro rest
  induction rest with
  | nil =>
    intro emitted
    simp [groupGo, countGroupK]
  | cons it rest ih =>
    intro emitted
    by_cases hk : keyOf it = k
    · subst hk
      by_cases hg : isGroupKey items m (keyOf it) = true
      · by_cases he : keyOf it ∈ emitted
        · rw [groupGo_cons_skip items m it rest emitted hg he, ih emitted]
          rw [if_neg (by rintro ⟨_, hni, _⟩; exact hni he),
            if_neg (by rintro ⟨_, hni, _⟩; exact hni he)]
        · rw [groupGo_cons_emit items m it rest emitted hg he]
          rw [countGroupK_cons_group, if_pos rfl, ih (keyOf it :: emitted)]
          rw [if_neg (by rintro ⟨_, hni, _⟩; exact hni (List.mem_cons_self _ _)),
            if_pos ⟨hg, he, it, List.mem_cons_self _ _, rfl⟩]
      · have hgf : isGroupKey items m (keyOf it) = false := by
          simpa using hg
        rw [groupGo_cons_single items m it rest emitted hgf]
        rw [countGroupK_cons_single, ih emitted]
        rw [if_neg (by rintro ⟨hgg, _, _⟩; simp [hgf] at hgg),
          if_neg (by rintro ⟨hgg, _, _⟩; simp [hgf] at hgg)]
    · have hex : (∃ x ∈ it :: rest, keyOf x = k) ↔ (∃ x ∈ rest, keyOf x = k) := by
        constructor
        · rintro ⟨x, hx, hxk⟩
          rcases List.mem_cons.mp hx with rfl | hx2
          · exact absurd hxk hk
          · exact ⟨x, hx2, hxk⟩
        · rintro ⟨x, hx, hxk⟩
          exact ⟨x, List.mem_cons_of_mem _ hx, hxk⟩
      by_cases hg : isGroupKey items m (keyOf it) = true
      · by_cases he : keyOf it ∈ emitted
        · rw [groupGo_cons_skip items m it rest emitted hg he, ih emitted]
          refine if_congr ?_ rfl rfl
          rw [hex]
        · rw [groupGo_cons_emit items m it rest emitted hg he]
          rw [countGroupK_cons_group, if_neg hk, ih (keyOf it :: emitted)]
          have hmemc : k ∈ keyOf it :: emitted ↔ k ∈ emitted := by
            rw [List.mem_cons]
            constructor
            · rintro (h | h)
              · exact absurd h.symm hk
              · exact h
            · exact fun h => Or.inr h
          rw [Nat.zero_add]
          refine if_congr ?_ rfl rfl
          rw [hex, hmemc]
      · have hgf : isGroupKey items m (keyOf it) = false := by
          simpa using hg
        rw [groupGo_cons_single items m it rest emitted hgf]
        rw [countGroupK_cons_single, ih emitted]
        refine if_congr ?_ rfl rfl
        rw [hex]

theorem groupGo_group_members (items : List Item) (m : Nat) :
    ∀ (rest : List Item) (emitted : List String) (k : String) (ms : List Item),
      GEntry.group k ms ∈ groupGo items m rest emitted →
      ms = sortMembers (membersOf items k) := by
  intro rest
  induction rest with
  | nil =>
    intro emitted k ms h
    simp [groupGo] at h
  | cons it rest ih =>
    intro emitted k ms h
    by_cases hg : isGroupKey items m (keyOf it) = true
    · by_cases he : keyOf it ∈ emitted
      · rw [groupGo_cons_skip items m it rest emitted hg he] at h
        exact ih emitted k ms h
      · rw [groupGo_cons_emit items m it rest emitted hg he] at h
        rcases List.mem_cons.mp h with heq | h2
        · simp only [GEntry.group.injEq] at heq
          rw [heq.2, heq.1]
        · exact ih (keyOf it :: emitted) k ms h2
    · have hgf : isGroupKey items m (keyOf it) = false := by simpa using hg
      rw [groupGo_cons_single items m it rest emitted hgf] at h
      rcases List.mem_cons.mp h with heq | h2
      · simp at heq
      · exact ih emitted k ms h2

theorem groupGo_singles (items : List Item) (m : Nat) (k : String)
    (hng : isGroupKey items m k = false) :
    ∀ (rest : List Item) (emitted : List String),
      singlesWithKey (groupGo items m rest emitted) k
        = rest.filter (fun it => keyOf it == k) := by
  intro rest
  induction rest with
  | nil =>
    intro emitted
    simp [groupGo, singlesWithKey]
  | cons it rest ih =>
    intro emitted
    by_cases hg : isGroupKey items m (keyOf it) = true
    · have hne : ¬ (keyOf it = k) := by
        intro h
        rw [h] at hg
        simp [hng] at hg
      by_cases he : keyOf it ∈ emitted
      · rw [groupGo_cons_skip items m it rest emitted hg he, ih emitted,
          List.filter_cons_of_neg (by simp [hne])]
      · rw [groupGo_cons_emit items m it rest emitted hg he]
        rw [show singlesWithKey
            (GEntry.group (keyOf it) (sortMembers (membersOf items (keyOf it)))
              :: groupGo items m rest (keyOf it :: emitted)) k
            = singlesWithKey (groupGo items m rest (keyOf it :: emitted)) k from by
          simp [singlesWithKey, List.filterMap_cons]]
        rw [ih (keyOf it :: emitted), List.filter_cons_of_neg (by simp [hne])]
    · have hgf : isGroupKey items m (keyOf it) = false := by simpa using hg
      rw [groupGo_cons_single items m it rest emitted hgf]
      by_cases hke : keyOf it = k
      · rw [show singlesWithKey (GEntry.single it :: groupGo items m rest emitted) k
            = it :: singlesWithKey (groupGo items m rest emitted) k from by
          simp [singlesWithKey, List.filterMap_cons, hke]]
        rw [ih emitted, List.filter_cons_of_pos (by simp [hke])]
      · rw [show singlesWithKey (GEntry.single it :: groupGo items m rest emitted) k
            = singlesWithKey (groupGo items m rest emitted) k from by
          simp [singlesWithKey, List.filterMap_cons, hke]]
        rw [ih emitted, List.filter_cons_of_neg (by simp [hke])]



/-- **C3 (amended).**  For a *non-blank* group key `k` (the source blanks
any normalised key shorter than 10 characters, and blank keys never
group): if at least 3 documents share `k` the output contains exactly one
Group with key `k`, whose member list is exactly the bucket of `k`
(sorted, hence a permutation of those documents); if exactly 2 share `k`,
no Group with key `k` exists and both remain individual entries. -/
theorem grouping_threshold_amended (items : List Item) (k : String) (hk : k ≠ "") :
    (3 ≤ (membersOf items k).length →
      countGroupK (group_items_for_plain_text items 3) k = 1
      ∧ (∀ ms, GEntry.group k ms ∈ group_items_for_plain_text items 3 →
          ms = sortMembers (membersOf items k) ∧ ms.Perm (membersOf items k)))
    ∧ ((membersOf items k).length = 2 →
      countGroupK (group_items_for_plain_text items 3) k = 0
      ∧ singlesWithKey (group_items_for_plain_text items 3) k = membersOf items k) := by
  constructor
  · intro h3
    have hg : isGroupKey items 3 k = true := by
      simp [isGroupKey, hk, h3]
    have hex : ∃ x ∈ items, keyOf x = k := by
      have hne : membersOf items k ≠ [] := by
        intro h
        rw [h] at h3
        simp at h3
      obtain ⟨x, hx⟩ := List.exists_mem_of_ne_nil _ hne
      rcases List.mem_filter.mp hx with ⟨hxi, hxk⟩
      exact ⟨x, hxi, by simpa using hxk⟩
    constructor
    · rw [group_items_for_plain_text, groupGo_count items 3 k items []]
      rw [if_pos ⟨hg, by simp, hex⟩]
    · intro ms hms
      have hmem := groupGo_group_members items 3 items [] k ms hms
      refine ⟨hmem, ?_⟩
      rw [hmem]
      exact sortBy_perm sortkLt (membersOf items k)
  · intro h2
    have hgf : isGroupKey items 3 k = false := by
      simp [isGroupKey, h2]
    constructor
    · rw [group_items_for_plain_text, groupGo_count items 3 k items []]
      rw [if_neg (by rintro ⟨hgg, _, _⟩; simp [hgf] at hgg)]
    · rw [group_items_for_plain_text, groupGo_singles items 3 k hgf items []]
      rfl

/-- Witness for the amended C3: three sharers form exactly one group, two
sharers form none and stay individual. -/
theorem grouping_threshold_amended_witness :
    countGroupK (group_items_for_plain_text [wg1, wg2, wg3] 3) "PORTARIA FISCAL" = 1
    ∧ countGroupK (group_items_for_plain_text [wd1, wd2] 3) "DECRETO ESPECIAL" = 0 :=
  ⟨((grouping_threshold_amended [wg1, wg2, wg3] "PORTARIA FISCAL" (by decide)).1
      (by decide)).1,
   ((grouping_threshold_amended [wd1, wd2] "DECRETO ESPECIAL" (by decide)).2
      (by decide)).1⟩

/-- **C3 counterexample.**  Three documents sharing the normalised title
key described by the claim (`LEI`, from upper-casing and removing the
act-number token) do *not* appear as one Group: the source blanks keys
shorter than 10 characters, so all three remain ungrouped singles. -/
theorem grouping_short_key_counterexample :
    claimNormalizedKey (pyStrip lei1.titulo) = "LEI"
    ∧ claimNormalizedKey (pyStrip lei2.titulo) = "LEI"
    ∧ claimNormalizedKey (pyStrip lei3.titulo) = "LEI"
    ∧ group_items_for_plain_text [lei1, lei2, lei3] 3
        = [GEntry.single lei1, GEntry.single lei2, GEntry.single lei3] := by
  refine ⟨by decide, by decide, by decide, by decide⟩



theorem tripleKeyLt_trans (a b c : Bool × Nat × List Char)
    (h1 : tripleKeyLt a b = true) (h2 : tripleKeyLt b c = true) :
    tripleKeyLt a c = true := by
  obtain ⟨a1, a2, a3⟩ := a
  obtain ⟨b1, b2, b3⟩ := b
  obtain ⟨c1, c2, c3⟩ := c
  simp only [tripleKeyLt, Bool.or_eq_true, Bool.and_eq_true, decide_eq_true_eq] at h1 h2 ⊢
  rcases h1 with ⟨ha, hb⟩ | ⟨he, h1⟩
  · rcases h2 with ⟨hb2, hc⟩ | ⟨he2, h2⟩
    · rw [hb] at hb2
      simp at hb2
    · exact Or.inl ⟨ha, by rw [← he2]; exact hb⟩
  · rcases h2 with ⟨hb2, hc⟩ | ⟨he2, h2⟩
    · exact Or.inl ⟨by rw [he]; exact hb2, hc⟩
    · refine Or.inr ⟨he.trans he2, ?_⟩
      rcases h1 with h1 | ⟨hc1, hs1⟩ <;> rcases h2 with h2 | ⟨hc2, hs2⟩
      · exact Or.inl (Nat.lt_trans h1 h2)
      · exact Or.inl (hc2 ▸ h1)
      · exact Or.inl (hc1 ▸ h2)
      · exact Or.inr ⟨hc1.trans hc2, strLtB_trans _ _ _ hs1 hs2⟩

theorem tripleKeyLt_asymm (a b : Bool × Nat × List Char)
    (h : tripleKeyLt a b = true) : tripleKeyLt b a = false := by
  obtain ⟨a1, a2, a3⟩ := a
  obtain ⟨b1, b2, b3⟩ := b
  simp only [tripleKeyLt, Bool.or_eq_true, Bool.and_eq_true, decide_eq_true_eq] at h
  simp only [tripleKeyLt, Bool.or_eq_false_iff, Bool.and_eq_false_iff,
    decide_eq_false_iff_not]
  rcases h with ⟨ha, hb⟩ | ⟨he, h1⟩
  · constructor
    · rintro ⟨hb2, ha2⟩
      rw [hb] at hb2
      simp at hb2
    · refine Or.inl ?_
      intro he
      rw [ha, hb] at he
      simp at he
  · constructor
    · rintro ⟨hb2, ha2⟩
      rw [he] at ha2
      rw [ha2] at hb2
      simp at hb2
    · refine Or.inr ?_
      rcases h1 with h1 | ⟨hc1, hs1⟩
      · exact ⟨by omega, Or.inl (by omega)⟩
      · exact ⟨by omega, Or.inr (strLtB_asymm _ _ hs1)⟩

theorem sortkLt_trans (x y z : Item) (h1 : sortkLt x y = true)
    (h2 : sortkLt y z = true) : sortkLt x z = true :=
  tripleKeyLt_trans _ _ _ h1 h2

theorem sortkLt_asymm (x y : Item) (h : sortkLt x y = true) : sortkLt y x = false :=
  tripleKeyLt_asymm _ _ h

theorem foldl_min_le_init : ∀ (l : List Nat) (a : Nat), l.foldl Nat.min a ≤ a := by
  intro l
  induction l with
  | nil => intro a; exact Nat.le_refl a
  | cons y ys ih =>
    intro a
    exact Nat.le_trans (ih (Nat.min a y)) (Nat.min_le_left a y)

theorem foldl_min_le_mem : ∀ (l : List Nat) (a x : Nat), x ∈ l → l.foldl Nat.min a ≤ x := by
  intro l
  induction l with
  | nil => intro a x h; simp at h
  | cons y ys ih =>
    intro a x h
    rcases List.mem_cons.mp h with rfl | h2
    · exact Nat.le_trans (foldl_min_le_init ys (Nat.min a x)) (Nat.min_le_right a x)
    · exact ih (Nat.min a y) x h2

theorem minNat_le (l : List Nat) (x : Nat) (h : x ∈ l) : minNat l ≤ x := by
  cases l with
  | nil => simp at h
  | cons y ys =>
    rcases List.mem_cons.mp h with rfl | h2
    · exact foldl_min_le_init ys x
    · exact foldl_min_le_mem ys y x h2

theorem init_le_foldl_max : ∀ (l : List Nat) (a : Nat), a ≤ l.foldl Nat.max a := by
  intro l
  induction l with
  | nil => intro a; exact Nat.le_refl a
  | cons y ys ih =>
    intro a
    exact Nat.le_trans (Nat.le_max_left a y) (ih (Nat.max a y))

theorem mem_le_foldl_max : ∀ (l : List Nat) (a x : Nat), x ∈ l → x ≤ l.foldl Nat.max a := by
  intro l
  induction l with
  | nil => intro a x h; simp at h
  | cons y ys ih =>
    intro a x h
    rcases List.mem_cons.mp h with rfl | h2
    · exact Nat.le_trans (Nat.le_max_right a x) (init_le_foldl_max ys (Nat.max a x))
    · exact ih (Nat.max a y) x h2

theorem le_maxNat (l : List Nat) (x : Nat) (h : x ∈ l) : x ≤ maxNat l := by
  cases l with
  | nil => simp at h
  | cons y ys =>
    rcases List.mem_cons.mp h with rfl | h2
    · exact init_le_foldl_max ys x
    · exact mem_le_foldl_max ys y x h2

theorem groupNums_cons_none (x : Item) (xs : List Item)
    (hx : numToInt (extractNum x) = none) :
    groupNums (x :: xs) = groupNums xs := by
  simp [groupNums, List.filterMap_cons, hx]

theorem groupNums_cons_some (x : Item) (xs : List Item) (n : Nat)
    (hx : numToInt (extractNum x) = some n) :
    groupNums (x :: xs) = n :: groupNums xs := by
  simp [groupNums, List.filterMap_cons, hx]

theorem groupNums_length_le (xs : List Item) : (groupNums xs).length ≤ xs.length :=
  List.length_filterMap_le _ _

theorem groupNums_length_eq_iff (ms : List Item) :
    (groupNums ms).length = ms.length ↔
      ∀ x ∈ ms, (numToInt (extractNum x)).isSome = true := by
  induction ms with
  | nil => simp [groupNums]
  | cons x xs ih =>
    rcases hx : numToInt (extractNum x) with _ | n
    · rw [groupNums_cons_none x xs hx, List.length_cons]
      constructor
      · intro h
        exfalso
        have hle := groupNums_length_le xs
        omega
      · intro h
        exfalso
        have := h x (List.mem_cons_self x xs)
        rw [hx] at this
        simp at this
    · rw [groupNums_cons_some x xs n hx, List.length_cons, List.length_cons]
      constructor
      · intro h
        intro y hy
        rcases List.mem_cons.mp hy with rfl | h2
        · rw [hx]
          rfl
        · exact (ih.mp (by omega)) y h2
      · intro h
        have := ih.mpr (fun y hy => h y (List.mem_cons_of_mem x hy))
        omega

theorem numericRange_isSome_iff (ms : List Item) :
    (numericRange ms).isSome = true ↔
      (∀ x ∈ ms, (numToInt (extractNum x)).isSome = true) ∧ ms ≠ [] := by
  unfold numericRange
  by_cases h : (groupNums ms).length = ms.length ∧ ¬ (groupNums ms).isEmpty = true
  · rw [if_pos h]
    obtain ⟨h1, h2⟩ := h
    constructor
    · intro _
      refine ⟨(groupNums_length_eq_iff ms).mp h1, ?_⟩
      intro hnil
      rw [hnil] at h2
      simp [groupNums] at h2
    · intro _
      rfl
  · rw [if_neg h]
    constructor
    · intro hfalse
      exact absurd hfalse (by simp)
    · rintro ⟨hall, hne⟩
      exfalso
      apply h
      have h1 := (groupNums_length_eq_iff ms).mpr hall
      refine ⟨h1, ?_⟩
      intro hemp
      have hgnil : groupNums ms = [] := by
        cases hgg : groupNums ms with
        | nil => rfl
        | cons a t => rw [hgg] at hemp; simp at hemp
      rw [hgnil] at h1
      simp at h1
      exact hne (List.length_eq_zero.mp h1.symm)

theorem numericRange_bounds (ms : List Item) (a b : Nat)
    (h : numericRange ms = some (a, b)) :
    ∀ x ∈ ms, ∀ n, numToInt (extractNum x) = some n → a ≤ n ∧ n ≤ b := by
  unfold numericRange at h
  split_ifs at h with hc
  · simp only [Option.some.injEq, Prod.mk.injEq] at h
    intro x hx n hn
    have hmem : n ∈ groupNums ms :=
      List.mem_filterMap.mpr ⟨x, hx, hn⟩
    constructor
    · rw [← h.1]
      exact minNat_le _ _ hmem
    · rw [← h.2]
      exact le_maxNat _ _ hmem

/-- **C5 (amended).**  Every formed Group's member list is the full bucket
of its key, sorted stably by `(number is missing, number, title)`: members
with a cleanly-parseable act number come first in ascending numeric order,
the remaining members follow ordered by title (so with mixed
parseability the list is *not* simply title-ordered); the numeric range
`(min, max)` is attached iff every member has a parseable number, and it
bounds every member's number. -/
theorem group_member_order_amended (items : List Item) (k : String) (ms : List Item)
    (hms : GEntry.group k ms ∈ group_items_for_plain_text items 3) :
    ms.Perm (membersOf items k)
    ∧ ms.Pairwise (fun a b => sortkLt b a = false)
    ∧ ((∀ x ∈ ms, (numToInt (extractNum x)).isSome = true) →
        ms.Pairwise (fun a b =>
          (numToInt (extractNum a)).getD 0 ≤ (numToInt (extractNum b)).getD 0))
    ∧ ((numericRange ms).isSome = true ↔
        (∀ x ∈ ms, (numToInt (extractNum x)).isSome = true) ∧ ms ≠ [])
    ∧ (∀ a b, numericRange ms = some (a, b) →
        ∀ x ∈ ms, ∀ n, numToInt (extractNum x) = some n → a ≤ n ∧ n ≤ b) := by
  have hmem := groupGo_group_members items 3 items [] k ms hms
  subst hmem
  refine ⟨sortBy_perm sortkLt (membersOf items k),
    sortBy_pairwise sortkLt sortkLt_trans sortkLt_asymm (membersOf items k),
    ?_, numericRange_isSome_iff _, numericRange_bounds _⟩
  intro hall
  have hp := sortBy_pairwise sortkLt sortkLt_trans sortkLt_asymm (membersOf items k)
  refine List.Pairwise.imp_of_mem ?_ hp
  intro x y hx hy hR
  obtain ⟨nx, hnx⟩ := Option.isSome_iff_exists.mp (hall x hx)
  obtain ⟨ny, hny⟩ := Option.isSome_iff_exists.mp (hall y hy)
  rw [hnx, hny]
  simp only [Option.getD_some]
  by_contra hgt
  have hyx : sortkLt y x = true := by
    simp only [sortkLt, tripleKeyLt, sortkKey, hnx, hny, Option.isNone_some,
      Option.getD_some]
    simp only [Bool.or_eq_true, Bool.and_eq_true, decide_eq_true_eq]
    right
    exact ⟨trivial, Or.inl (by omega)⟩
  rw [hyx] at hR
  exact absurd hR (by simp)

/-- Witness for the amended C5 at a concrete formed group. -/
theorem group_member_order_amended_witness :
    ([mixA, mixB, mixC] : List Item).Pairwise (fun a b => sortkLt b a = false) :=
  (group_member_order_amended [mixC, mixA, mixB] "PORTARIA FISCAL" [mixA, mixB, mixC]
    (by decide)).2.1

/-- **C5 counterexample.**  The claim says that when not all members have
a parseable number the members are ordered by title.  In the group formed
from the three documents below, `mixC`'s number `123/2026` is not cleanly
parseable, and the emitted member order is `[mixA, mixB, mixC]` — yet
`mixC`'s title is the *smallest* of the three, so the members are not
title-ordered (numbered members come first, ascending). -/
theorem group_mixed_not_title_sorted :
    group_items_for_plain_text [mixC, mixA, mixB] 3
      = [GEntry.group "PORTARIA FISCAL" [mixA, mixB, mixC]]
    ∧ numToInt (extractNum mixC) = none
    ∧ strLtB mixC.titulo.data mixA.titulo.data = true
    ∧ strLtB mixC.titulo.data mixB.titulo.data = true := by
  refine ⟨by decide, by decide, by decide, by decide⟩


end Dou
